import Mathlib

/-!
Verification development for the mnet single-threaded TCP reactor
(`src/mnet.cc`).  The C++ code is shallowly embedded: pure routines become
Lean functions, the stateful socket routines become explicit state-passing
functions over traces of system-call outcomes, and machine integers become
`Nat`/`Int` with explicit reductions modulo powers of two where overflow
matters.  Helpers that live only in the header `mnet.h` (not part of
`src/`) are modelled from the specification and are marked as such in
their doc comments.
-/

namespace Mnet

/-- Linux errno value EAGAIN (on Linux EWOULDBLOCK is the same value). -/
def EAGAIN : Nat := 11

/-- Linux errno value EWOULDBLOCK. -/
def EWOULDBLOCK : Nat := 11

/-- Linux errno value EINTR. -/
def EINTR : Nat := 4

/-- Linux errno value EMFILE (per-process fd limit reached). -/
def EMFILE : Nat := 24

/-- Linux errno value ENFILE (system-wide fd limit reached). -/
def ENFILE : Nat := 23

/-- Linux errno value ENOBUFS. -/
def ENOBUFS : Nat := 105

/-- Linux errno value ERANGE (set by strtol on overflow). -/
def ERANGE : Nat := 34

/-- Error category of a `NetState`, mirroring `state_category` in the code. -/
inductive StateCategory where
  | kSystem
  | kUser
deriving DecidableEq

/-- NetState: either OK or a (category, errno code) pair.  `NetState()` and
`Clear()` yield `ok`; `CheckPoint(cat, code)` yields `fail cat code`; the
boolean conversion is true exactly on `ok`. -/
inductive NetState where
  | ok
  | fail (category : StateCategory) (code : Nat)
deriving DecidableEq

/-- Boolean conversion of `NetState`: true iff OK. -/
def NetState.isOk : NetState → Bool
  | .ok => true
  | .fail _ _ => false

/-- Buffer: a contiguous byte region (`data`, whose length is the capacity)
with a read offset, a write offset and the `is_fixed_` growth-disabling
flag.  Bytes are modelled as `Nat`. -/
structure Buffer where
  data : List Nat
  read_ptr : Nat
  write_ptr : Nat
  is_fixed : Bool
deriving DecidableEq

/-- Capacity of a buffer (`capacity_` in the code; length of the backing
allocation). -/
def Buffer.capacity (b : Buffer) : Nat := b.data.length

/-- Readable span size: `write_ptr_ - read_ptr_`. -/
def Buffer.readable_size (b : Buffer) : Nat := b.write_ptr - b.read_ptr

/-- Writable span size: `capacity_ - write_ptr_`. -/
def Buffer.writable_size (b : Buffer) : Nat := b.capacity - b.write_ptr

/-- Well-formedness of a buffer: offsets are ordered and inside the
allocation. -/
def Buffer.wf (b : Buffer) : Prop :=
  b.read_ptr ≤ b.write_ptr ∧ b.write_ptr ≤ b.capacity

instance (b : Buffer) : Decidable b.wf := by
  unfold Buffer.wf
  infer_instance

/-- Modelled from the spec: `RewindBuffer` is defined in the header
`mnet.h`, which is not under `src/`.  Per the data model, when the readable
span is empty both offsets reset to 0. -/
def Buffer.RewindBuffer (b : Buffer) : Buffer :=
  if b.readable_size = 0 then { b with read_ptr := 0, write_ptr := 0 } else b

/-- The memcpy at the write offset followed by `write_ptr_ += length`:
copies `length` bytes of `src` to `data[write_ptr ..]` and advances the
write offset. -/
def Buffer.writeBytes (b : Buffer) (src : List Nat) (length : Nat) : Buffer :=
  { b with
      data := b.data.take b.write_ptr ++ src.take length
                ++ b.data.drop (b.write_ptr + length),
      write_ptr := b.write_ptr + length }

/-- `Buffer::Grow(cap)` from the source: a no-op for `cap = 0`; otherwise a
fresh allocation of `cap + readable_size()` bytes is made, the readable
span is copied to offset 0 and the offsets are rebased.  The fresh memory
past the readable span is uninitialised in C; it is modelled as zeros
(its contents are never observed before being overwritten). -/
def Buffer.Grow (b : Buffer) (cap : Nat) : Buffer :=
  if cap = 0 then b
  else
    { data := (b.data.drop b.read_ptr).take b.readable_size
                ++ List.replicate cap 0,
      read_ptr := 0,
      write_ptr := b.readable_size,
      is_fixed := b.is_fixed }

/-- `Buffer::Read(size)` from the source.  Returns the buffer after the
call, the returned pointer (modelled as the byte offset `mem_ + read_ptr_`
it points at) and the value of `*size` after the call.  The source
computes `read_sz = min(*size, readable_size())`, advances `read_ptr_` by
it, rewinds, and returns the old read offset; it never stores anything
back through `size`. -/
def Buffer.Read (b : Buffer) (size : Nat) : Buffer × Nat × Nat :=
  let read_sz := min size b.readable_size
  let mem := b.read_ptr
  let b' := { b with read_ptr := b.read_ptr + read_sz }
  (b'.RewindBuffer, mem, size)

/-- `Buffer::Inject(mem, length)` from the source: if the writable span is
too small, fail on a fixed buffer, otherwise `Grow(length)`; then memcpy
`length` bytes at the write offset and advance it. -/
def Buffer.Inject (b : Buffer) (src : List Nat) (length : Nat) :
    Buffer × Bool :=
  if b.writable_size < length then
    if b.is_fixed then (b, false)
    else ((b.Grow length).writeBytes src length, true)
  else (b.writeBytes src length, true)

/-- The readable region of a buffer: the bytes in `[read_ptr, write_ptr)`. -/
def Buffer.readableRegion (b : Buffer) : List Nat :=
  (b.data.drop b.read_ptr).take b.readable_size

/-- Endpoint: host-order IPv4 address and port, both stored as `uint32_t`
fields in the code and modelled as `Nat` below `2^32`. -/
structure Endpoint where
  ipv4 : Nat
  port : Nat
deriving DecidableEq

/-- Modelled from the spec: `kEndpointError` is declared in the header
`mnet.h` (not under `src/`) as the sentinel port value marking parse
failures; it is distinct from every valid port (valid ports are at most
65535). -/
def kEndpointError : Nat := 2 ^ 32 - 1

/-- Whitespace test used by `strtol` (C `isspace` in the POSIX locale),
keyed on the character code. -/
def isSpaceChar (c : Char) : Bool :=
  c.toNat = 32 ∨ c.toNat = 9 ∨ c.toNat = 10 ∨ c.toNat = 11 ∨
    c.toNat = 12 ∨ c.toNat = 13

/-- Decimal digit test keyed on the character code. -/
def isDigitChar (c : Char) : Bool := 48 ≤ c.toNat ∧ c.toNat ≤ 57

/-- LONG_MAX on the LP64 targets the code runs on. -/
def longMax : Int := 2 ^ 63 - 1

/-- LONG_MIN on the LP64 targets the code runs on. -/
def longMin : Int := -(2 ^ 63)

/-- Accumulate a run of decimal digits: returns the exact (unbounded)
value of the digit run together with the number of digits consumed. -/
def parseDigitsAcc : List Char → Nat → Nat → Nat × Nat
  | c :: cs, acc, cnt =>
    if isDigitChar c then parseDigitsAcc cs (acc * 10 + (c.toNat - 48)) (cnt + 1)
    else (acc, cnt)
  | [], acc, cnt => (acc, cnt)

/-- Result of `strtol(buf, &pend, 10)` with `errno` cleared beforehand (as
both call sites do): the returned `long`, the offset `pend - buf`, and the
value of `errno` after the call (0 or ERANGE). -/
structure StrtolResult where
  value : Int
  consumed : Nat
  err : Nat
deriving DecidableEq

/-- Final classification of a digit run for `strtol`: with no digits the
result is 0 with `pend = buf` (nothing consumed); on overflow the value
clamps to LONG_MAX / LONG_MIN and `errno` is ERANGE, with all digits still
consumed. -/
def strtolFinish (v cnt : Nat) (neg : Bool) (pre : Nat) : StrtolResult :=
  if cnt = 0 then ⟨0, 0, 0⟩
  else if neg then
    if (v : Int) > 2 ^ 63 then ⟨longMin, pre + cnt, ERANGE⟩
    else ⟨-(v : Int), pre + cnt, 0⟩
  else
    if (v : Int) > longMax then ⟨longMax, pre + cnt, ERANGE⟩
    else ⟨(v : Int), pre + cnt, 0⟩

/-- Core of `strtol` after whitespace and sign handling.  `pre` is the
number of whitespace and sign characters already consumed. -/
def strtolCore (r : List Char) (neg : Bool) (pre : Nat) : StrtolResult :=
  strtolFinish (parseDigitsAcc r 0 0).1 (parseDigitsAcc r 0 0).2 neg pre

/-- Behaviour of glibc `strtol(buf, &pend, 10)`: skip whitespace, accept an
optional sign, then a run of decimal digits. -/
def strtol10 (s : List Char) : StrtolResult :=
  let t := s.dropWhile isSpaceChar
  let ws := s.length - t.length
  match t with
  | c :: r =>
    if c.toNat = 45 then strtolCore r true (ws + 1)
    else if c.toNat = 43 then strtolCore r false (ws + 1)
    else strtolCore (c :: r) false ws
  | [] => strtolCore [] false ws

/-- Reading `*pend` in a C string: the character at the given offset, with
the terminating NUL for offsets past the end. -/
def charAt (s : List Char) (i : Nat) : Char := (s.drop i).headD (Char.ofNat 0)

/-- One `PARSE(c)` step of `Endpoint::StringToIpv4`: run strtol at offset
`len`, fail on nonzero errno, convert to `uint32_t` (reduce the long
modulo `2^32`), fail when the converted value exceeds 255.  On success
return the octet value and the offset of `pend`.  (`c < 0` in the source
is always false on the unsigned type.) -/
def parseOctet (buf : List Char) (len : Nat) : Option (Nat × Nat) :=
  let r := strtol10 (buf.drop len)
  if r.err ≠ 0 then none
  else
    let c := (r.value % (2 ^ 32 : Int)).toNat
    if c > 255 then none else some (c, len + r.consumed)

/-- One `CHECK()` step of `Endpoint::StringToIpv4`: fail unless the
character at `pend` is a dot; on success the next component starts right
after the dot. -/
def checkDot (buf : List Char) (pend : Nat) : Option Nat :=
  if charAt buf pend = Char.ofNat 46 then some (pend + 1) else none

/-- `Endpoint::StringToIpv4` from the source: parse four dot-separated
components; any failure jumps to `fail`, which overwrites the port with
`kEndpointError` and returns -1.  On success the address field becomes
`c4 | c3 << 8 | c2 << 16 | c1 << 24` and `pend - buf` is returned. -/
def Endpoint.StringToIpv4 (ep : Endpoint) (buf : List Char) :
    Endpoint × Int :=
  match parseOctet buf 0 with
  | none => ({ ep with port := kEndpointError }, -1)
  | some (c1, p1) =>
    match checkDot buf p1 with
    | none => ({ ep with port := kEndpointError }, -1)
    | some l2 =>
      match parseOctet buf l2 with
      | none => ({ ep with port := kEndpointError }, -1)
      | some (c2, p2) =>
        match checkDot buf p2 with
        | none => ({ ep with port := kEndpointError }, -1)
        | some l3 =>
          match parseOctet buf l3 with
          | none => ({ ep with port := kEndpointError }, -1)
          | some (c3, p3) =>
            match checkDot buf p3 with
            | none => ({ ep with port := kEndpointError }, -1)
            | some l4 =>
              match parseOctet buf l4 with
              | none => ({ ep with port := kEndpointError }, -1)
              | some (c4, p4) =>
                ({ ep with
                    ipv4 := c4 ||| (c3 <<< 8) ||| (c2 <<< 16) ||| (c1 <<< 24) },
                  (p4 : Int))

/-- `Endpoint::StringToPort` from the source: strtol the whole string; on
nonzero errno or a value outside `[0, 65535]` set the sentinel and return
-1; otherwise store the value and return `pend - buf`. -/
def Endpoint.StringToPort (ep : Endpoint) (buf : List Char) :
    Endpoint × Int :=
  let r := strtol10 buf
  if r.err ≠ 0 then ({ ep with port := kEndpointError }, -1)
  else if r.value > 65535 ∨ r.value < 0 then
    ({ ep with port := kEndpointError }, -1)
  else ({ ep with port := r.value.toNat }, (r.consumed : Int))

/-- Decimal rendering of a nonnegative integer, as `sprintf("%d", n)`
produces for the values at hand. -/
def natToDec (n : Nat) : List Char :=
  if h : n < 10 then [Char.ofNat (48 + n)]
  else natToDec (n / 10) ++ [Char.ofNat (48 + n % 10)]
decreasing_by
  exact Nat.div_lt_self (by omega) (by omega)

/-- `Endpoint::Ipv4ToString` from the source: split the address into bytes
`c1 = ipv4 & 0xff` through `c4 = (ipv4 >> 24) & 0xff` and print
`"%d.%d.%d.%d"` with `c4, c3, c2, c1`. -/
def Endpoint.Ipv4ToString (ep : Endpoint) : List Char :=
  let c1 := ep.ipv4 &&& 255
  let c2 := (ep.ipv4 >>> 8) &&& 255
  let c3 := (ep.ipv4 >>> 16) &&& 255
  let c4 := (ep.ipv4 >>> 24) &&& 255
  natToDec c4 ++ [Char.ofNat 46] ++ natToDec c3 ++ [Char.ofNat 46]
    ++ natToDec c2 ++ [Char.ofNat 46] ++ natToDec c1

/-- `Endpoint::PortToString` from the source: print `"%d"` of the port. -/
def Endpoint.PortToString (ep : Endpoint) : List Char := natToDec ep.port

/-- The canonical dotted-quad rendering of four octets, used to state the
round-trip property. -/
def dottedQuad (a b c d : Nat) : List Char :=
  natToDec a ++ Char.ofNat 46 ::
    (natToDec b ++ Char.ofNat 46 :: (natToDec c ++ Char.ofNat 46 :: natToDec d))

/-- Outcome of one `readv` system call inside `Socket::DoRead`: either the
bytes delivered by the kernel (`ok []` is a return of 0, end of stream) or
a failure with an errno value. -/
inductive ReadvRes where
  | ok (bytes : List Nat)
  | err (e : Nat)
deriving DecidableEq

/-- The part of a `Socket` that `DoRead` touches: the read buffer and the
`can_read` / `eof` flags of the pollable. -/
structure SockReadState where
  rbuf : Buffer
  can_read : Bool
  eof : Bool
deriving DecidableEq

/-- Instrumentation of how a `DoRead` call returned; this tags the return
statement taken, it adds no behaviour.  `shortRead sz bound` is the return
after a successful `readv` of `sz` bytes with `sz < bound`, where `bound`
is the tail size plus the swap-buffer size of that iteration. -/
inductive ReadExit where
  | earlyEof
  | eagain
  | eof0
  | sysErr (e : Nat)
  | enobufs
  | shortRead (sz bound : Nat)
deriving DecidableEq

/-- The `do { ... } while(true)` loop of `Socket::DoRead`, consuming one
`readv` outcome per iteration.  The write accessor over the read buffer
has address `write_ptr` and size `writable_size`; committing advances
`write_ptr` (accessor semantics modelled from the spec, the accessor
itself lives in the header).  Returns `none` when the trace runs out while
the loop would keep reading. -/
def DoReadLoop (swap_size : Nat) :
    List ReadvRes → SockReadState → Nat →
      Option (SockReadState × Nat × NetState × ReadExit)
  | [], _, _ => none
  | .err e :: rest, st, acc =>
    if e = EAGAIN ∨ e = EWOULDBLOCK then
      some ({ st with can_read := false }, acc, .ok, .eagain)
    else if e = EINTR then DoReadLoop swap_size rest st acc
    else some (st, acc, .fail .kSystem e, .sysErr e)
  | .ok bytes :: rest, st, acc =>
    if bytes.length = 0 then some ({ st with eof := true }, acc, .ok, .eof0)
    else
      let asz := st.rbuf.writable_size
      if bytes.length ≤ asz then
        let st1 := { st with rbuf := st.rbuf.writeBytes bytes bytes.length }
        if bytes.length < swap_size + asz then
          some ({ st1 with can_read := false }, acc + bytes.length, .ok,
            .shortRead bytes.length (asz + swap_size))
        else DoReadLoop swap_size rest st1 (acc + bytes.length)
      else
        let pr := (st.rbuf.writeBytes (bytes.take asz) asz).Inject
            (bytes.drop asz) (bytes.length - asz)
        if pr.2 = false then
          some ({ st with rbuf := st.rbuf.writeBytes (bytes.take asz) asz },
            acc, .fail .kSystem ENOBUFS, .enobufs)
        else
          let st1 := { st with rbuf := pr.1 }
          if bytes.length < swap_size + asz then
            some ({ st1 with can_read := false }, acc + bytes.length, .ok,
              .shortRead bytes.length (asz + swap_size))
          else DoReadLoop swap_size rest st1 (acc + bytes.length)

/-- `Socket::DoRead` from the source: clear the out state; if `eof_` is
already set return 0 immediately; otherwise run the readv loop.  The
result carries the state after the call, the accumulated byte count, the
out `NetState`, and the exit tag. -/
def Socket.DoRead (swap_size : Nat) (trace : List ReadvRes)
    (st : SockReadState) :
    Option (SockReadState × Nat × NetState × ReadExit) :=
  if st.eof then some (st, 0, .ok, .earlyEof)
  else DoReadLoop swap_size trace st 0

/-- The part of a `Socket` that the write path touches: the write buffer,
the `can_write` flag, the running `prev_write_size_` counter and whether
the write-callback slot is occupied. -/
structure SockWriteState where
  wbuf : Buffer
  can_write : Bool
  prev_write_size : Nat
  write_cb : Bool
deriving DecidableEq

/-- Modelled from the spec: committing a read accessor (header code)
advances `read_ptr` by the committed size; per the buffer data model the
offsets rewind when the readable span empties. -/
def Buffer.commitRead (b : Buffer) (n : Nat) : Buffer :=
  Buffer.RewindBuffer { b with read_ptr := b.read_ptr + n }

/-- `Socket::DoWrite` from the source, consuming one `write` outcome per
iteration.  Each trace entry is the returned `ssize_t` paired with the
value of `errno` after the call (inspected only when the return is at most
0, matching the source, which treats 0 like -1).  On success the read
accessor over the write buffer commits the written size; a partial write
additionally clears `can_write`.  Returns `none` when the trace runs out
while the loop would retry. -/
def DoWriteLoop : List (Int × Nat) → SockWriteState →
    Option (SockWriteState × Nat × NetState)
  | [], _ => none
  | (sz, eno) :: rest, st =>
    if sz ≤ 0 then
      if eno = EAGAIN ∨ eno = EWOULDBLOCK then
        some ({ st with can_write := false }, 0, .ok)
      else if eno = EINTR then DoWriteLoop rest st
      else some (st, st.prev_write_size, .fail .kSystem eno)
    else
      let n := sz.toNat
      let asz := st.wbuf.readable_size
      some ({ st with wbuf := st.wbuf.commitRead n,
                      can_write := if n < asz then false else st.can_write },
        n, .ok)

/-- `Socket::OnWriteNotify` from the source: set `can_write`; when the
write buffer is empty do nothing; otherwise `DoWrite`, then with no error
and an emptied buffer fire the write callback (releasing the slot) with
`prev_write_size_ + write_sz`, with a still-nonempty buffer accumulate
into `prev_write_size_`, and on error fire the callback with
`prev_write_size_` and the error.  The second result lists the
`(size, state)` arguments of the write-callback invocations made. -/
def Socket.OnWriteNotify (trace : List (Int × Nat)) (st : SockWriteState) :
    Option (SockWriteState × List (Nat × NetState)) :=
  let st0 := { st with can_write := true }
  if st0.wbuf.readable_size = 0 then some (st0, [])
  else
    match DoWriteLoop trace st0 with
    | none => none
    | some (st1, write_sz, ws) =>
      if ws.isOk then
        if st1.wbuf.readable_size = 0 then
          some ({ st1 with write_cb := false },
            [(st1.prev_write_size + write_sz, ws)])
        else
          some ({ st1 with prev_write_size := st1.prev_write_size + write_sz },
            [])
      else some ({ st1 with write_cb := false }, [(st1.prev_write_size, ws)])

/-- Socket `state_` values relevant to the read path. -/
inductive SockState where
  | connected
  | closing
  | closed
deriving DecidableEq

/-- Which local `bool deleted` variable the notify-flag pointer of the
pollable currently aims at: the one on the dispatcher frame
(`IOManager::DispatchLoop`) or the one on a socket method frame
(`Socket::OnReadNotify` / `Socket::OnException`). -/
inductive FlagTarget where
  | dispatcher
  | sockLocal
deriving DecidableEq

/-- Modelled from the spec: the deleted-flag mechanism lives in the header
(`set_notify_flag` and the destructor).  The pollable stores one pointer;
`set_notify_flag` replaces it; a destructor run from inside a callback
writes true through the currently installed pointer.  `dispFlag` and
`sockFlag` are the two local variables a pointer can target, and
`destroyed` records that the destructor ran. -/
structure DelCtx where
  target : Option FlagTarget
  dispFlag : Bool
  sockFlag : Bool
  destroyed : Bool
deriving DecidableEq

/-- Effect of a user callback destroying its socket: the destructor sets
the currently installed deleted flag (if any) and the object is gone. -/
def destroySocket (d : DelCtx) : DelCtx :=
  { d with
      destroyed := true,
      dispFlag := if d.target = some .dispatcher then true else d.dispFlag,
      sockFlag := if d.target = some .sockLocal then true else d.sockFlag }

/-- A user-callback invocation observed during dispatch, with the
arguments the code passes. -/
inductive CbEvent where
  | readCb (sz : Nat) (ns : NetState)
  | closeData (sz : Nat)
  | closeClose (ns : NetState)
  | writeCb (sz : Nat) (ns : NetState)
deriving DecidableEq

/-- Static configuration of a socket for the dispatch model: its `state_`,
which callback slots are occupied, and what each user callback does when
invoked (whether it destroys the socket). -/
structure SockCfg where
  state : SockState
  read_cb : Bool
  write_cb : Bool
  readCbDestroys : Bool
  writeCbDestroys : Bool
  closeDataDestroys : Bool
  closeCloseDestroys : Bool
deriving DecidableEq

/-- Result of the `Socket::OnReadNotify` model: socket read state, the
deleted-flag context, the user callbacks invoked (in order), whether the
read-callback slot is still occupied, and the socket `state_` after. -/
structure ReadNotifyOut where
  rst : SockReadState
  d : DelCtx
  events : List CbEvent
  read_cb : Bool
  state : SockState
deriving DecidableEq

/-- `Socket::OnReadNotify` from the source: set `can_read`; bail out when
no read callback is installed; otherwise `DoRead`.  Outside CLOSING the
read callback is released and invoked once.  In CLOSING: with data the
close callback gets `InvokeData`; at EOF (or on error) the socket installs
its own local deleted flag via `set_notify_flag`, invokes
`InvokeClose`, and closes the fd (moving to CLOSED) only when that local
flag stayed false. -/
def Socket.OnReadNotify (cfg : SockCfg) (swap_size : Nat)
    (trace : List ReadvRes) (rst : SockReadState) (d : DelCtx) :
    Option ReadNotifyOut :=
  let rst0 := { rst with can_read := true }
  if cfg.read_cb = false then some ⟨rst0, d, [], false, cfg.state⟩
  else
    match Socket.DoRead swap_size trace rst0 with
    | none => none
    | some (rst1, read_sz, ns, _) =>
      if cfg.state ≠ .closing then
        let d1 := if cfg.readCbDestroys then destroySocket d else d
        some ⟨rst1, d1, [.readCb read_sz ns], false, cfg.state⟩
      else
        if ns.isOk then
          if read_sz > 0 then
            let d1 := if cfg.closeDataDestroys then destroySocket d else d
            some ⟨rst1, d1, [.closeData read_sz], true, cfg.state⟩
          else
            if rst1.eof then
              let d1 := { d with target := some .sockLocal, sockFlag := false }
              let d2 := if cfg.closeCloseDestroys then destroySocket d1 else d1
              if d2.sockFlag = false then
                some ⟨rst1, d2, [.closeClose .ok], true, .closed⟩
              else some ⟨rst1, d2, [.closeClose .ok], true, cfg.state⟩
            else some ⟨rst1, d, [], true, cfg.state⟩
        else
          let d1 := { d with target := some .sockLocal, sockFlag := false }
          let d2 := if cfg.closeCloseDestroys then destroySocket d1 else d1
          if d2.sockFlag = false then
            some ⟨rst1, d2, [.closeClose ns], true, .closed⟩
          else some ⟨rst1, d2, [.closeClose ns], true, cfg.state⟩

/-- `Socket::OnException` from the source: install a fresh local deleted
flag, invoke the read callback if installed, then — only if the local flag
is still false — invoke the write callback if installed. -/
def Socket.OnException (cfg : SockCfg) (ns : NetState) (d : DelCtx) :
    DelCtx × List CbEvent :=
  let d0 := { d with target := some FlagTarget.sockLocal, sockFlag := false }
  let step1 :=
    if cfg.read_cb then
      ((if cfg.readCbDestroys then destroySocket d0 else d0),
        [CbEvent.readCb 0 ns])
    else (d0, ([] : List CbEvent))
  if step1.1.sockFlag = false then
    if cfg.write_cb then
      ((if cfg.writeCbDestroys then destroySocket step1.1 else step1.1),
        step1.2 ++ [CbEvent.writeCb 0 ns])
    else step1
  else step1

/-- The epoll event bits of one queue entry. -/
structure EvFlags where
  epErr : Bool
  epHup : Bool
  epIn : Bool
  epOut : Bool
deriving DecidableEq

/-- Which pollable methods the dispatcher invoked for one event. -/
inductive TopCall where
  | exception
  | readNotify
  | writeNotify
deriving DecidableEq

/-- Outcome of dispatching one epoll event: the methods called, the user
callbacks invoked (in order), whether a callback destroyed the socket, and
the final value of the dispatcher-frame deleted flag. -/
structure DispatchOut where
  calls : List TopCall
  events : List CbEvent
  destroyed : Bool
  dispFlag : Bool
deriving DecidableEq

/-- One iteration of `IOManager::DispatchLoop` from the source.  On
EPOLLERR with a nonzero `SO_ERROR` the dispatcher calls `OnException` and
moves on; on EPOLLHUP it calls `OnReadNotify` and moves on; otherwise it
installs a dispatcher-local deleted flag via `set_notify_flag`, calls
`OnReadNotify` on EPOLLIN, and then calls `OnWriteNotify` on EPOLLOUT only
if that dispatcher flag is still false. -/
def IOManager.dispatchOne (swap_size : Nat) (ev : EvFlags) (soError : Nat)
    (cfg : SockCfg) (rtrace : List ReadvRes) (rst : SockReadState)
    (wtrace : List (Int × Nat)) (wst : SockWriteState) :
    Option DispatchOut :=
  if ev.epErr ∧ soError ≠ 0 then
    let r := Socket.OnException cfg (.fail .kSystem soError)
      ⟨none, false, false, false⟩
    some ⟨[.exception], r.2, r.1.destroyed, r.1.dispFlag⟩
  else if ev.epHup then
    match Socket.OnReadNotify cfg swap_size rtrace rst
        ⟨none, false, false, false⟩ with
    | none => none
    | some out => some ⟨[.readNotify], out.events, out.d.destroyed,
        out.d.dispFlag⟩
  else
    let d0 : DelCtx := ⟨some .dispatcher, false, false, false⟩
    match (if ev.epIn then Socket.OnReadNotify cfg swap_size rtrace rst d0
        else some ⟨rst, d0, [], cfg.read_cb, cfg.state⟩) with
    | none => none
    | some out =>
      if ev.epOut then
        if out.d.dispFlag = false then
          match Socket.OnWriteNotify wtrace wst with
          | none => none
          | some (_, wevents) =>
            some ⟨(if ev.epIn then [.readNotify] else []) ++ [.writeNotify],
              out.events ++ wevents.map (fun p => CbEvent.writeCb p.1 p.2),
              out.d.destroyed, out.d.dispFlag⟩
        else
          some ⟨(if ev.epIn then [.readNotify] else []), out.events,
            out.d.destroyed, out.d.dispFlag⟩
      else
        some ⟨(if ev.epIn then [.readNotify] else []), out.events,
          out.d.destroyed, out.d.dispFlag⟩

/-- Outcome of one `accept4` call inside `ServerSocket::DoAccept`. -/
inductive AcceptRes where
  | ok (fd : Nat)
  | err (e : Nat)
deriving DecidableEq

/-- The part of a `ServerSocket` the accept path touches. -/
structure ServerState where
  can_read : Bool
  dummy_fd : Int
deriving DecidableEq

/-- Behaviour of the system calls issued by `HandleRunOutOfFD`: the return
value of the plain `accept` (a new fd when nonnegative), the errno it sets
on failure, and the fd handed out by reopening `/dev/null` (the `VERIFY`
in the source demands that open succeeds). -/
structure RecoveryWorld where
  acceptRet : Int
  acceptErrno : Nat
  openFd : Nat
deriving DecidableEq

/-- System calls performed by the fd-exhaustion recovery, in order. -/
inductive SysEv where
  | closeFd (fd : Int)
  | acceptPlain
  | openDevNull
deriving DecidableEq

/-- `ServerSocket::HandleRunOutOfFD` from the source: only for EMFILE and
ENFILE, close the reserved dummy fd, accept one pending connection, close
the accepted fd when positive, and reopen the dummy fd on `/dev/null`.
Returns the server state, the system calls performed, and the value of
`errno` after the call (the recovery accept overwrites errno when it
fails; the successful close and open calls leave it unchanged). -/
def ServerSocket.HandleRunOutOfFD (err : Nat) (w : RecoveryWorld)
    (st : ServerState) (errnoIn : Nat) : ServerState × List SysEv × Nat :=
  if err = EMFILE ∨ err = ENFILE then
    ({ st with dummy_fd := (w.openFd : Int) },
      [SysEv.closeFd st.dummy_fd, SysEv.acceptPlain]
        ++ (if w.acceptRet > 0 then [SysEv.closeFd w.acceptRet] else [])
        ++ [SysEv.openDevNull],
      if w.acceptRet < 0 then w.acceptErrno else errnoIn)
  else (st, [], errnoIn)

/-- `ServerSocket::DoAccept` from the source, consuming one `accept4`
outcome per iteration: EAGAIN/EWOULDBLOCK clears `can_read` and returns -1
with no error; EINTR retries; any other errno runs `HandleRunOutOfFD`,
records a system `NetState` with the original errno, clears `can_read`
when the errno left behind by the recovery is EAGAIN/EWOULDBLOCK, and
returns -1; a success returns the new fd. -/
def ServerSocket.DoAccept (w : RecoveryWorld) :
    List AcceptRes → ServerState →
      Option (ServerState × List SysEv × NetState × Int)
  | [], _ => none
  | .ok nfd :: _, st => some (st, [], .ok, (nfd : Int))
  | .err e :: rest, st =>
    if e = EAGAIN ∨ e = EWOULDBLOCK then
      some ({ st with can_read := false }, [], .ok, -1)
    else if e = EINTR then ServerSocket.DoAccept w rest st
    else
      let r := ServerSocket.HandleRunOutOfFD e w st e
      let st2 := if r.2.2 = EAGAIN ∨ r.2.2 = EWOULDBLOCK then
          { r.1 with can_read := false }
        else r.1
      some (st2, r.2.1, .fail .kSystem e, -1)

/-- A timer-heap entry: the relative time in milliseconds and an identity
for the owned callback. -/
structure TimerEntry where
  time : Nat
  id : Nat
deriving DecidableEq

/-- The TIME_TRIGGER predicate of `IOManager::UpdateTimer` with
`kMinDiff = 3`: the absolute difference between an entry time and the
head time is below 3.  The difference is modelled on mathematical
integers; on the sorted heaps the reactor maintains the entry time is at
least the head time, where this agrees with the machine subtraction in
the source. -/
def timeTrigger (diff t : Nat) : Bool := ((t : Int) - (diff : Int)).natAbs < 3

/-- The firing loop of `UpdateTimer` on an empty dispatch batch: while the
front entry triggers against the head time captured before the loop,
invoke its callback with its own time and pop it.  Returns the remaining
queue and the `(id, time)` invocations in order.  The heap itself lives in
the header; modelled from the spec as a min-ordered list whose front is
the head and whose pop removes the front. -/
def fireLoop : List TimerEntry → Nat → List TimerEntry × List (Nat × Nat)
  | [], _ => ([], [])
  | e :: rest, diff =>
    if timeTrigger diff e.time then
      let p := fireLoop rest diff
      (p.1, (e.id, e.time) :: p.2)
    else (e :: rest, [])

/-- Conversion of an `int` value to `uint64_t` (sign extension, i.e. the
representative of the value modulo `2^64`). -/
def toUInt64 (i : Int) : Nat := (i % (2 ^ 64 : Int)).toNat

/-- Conversion of a `uint64_t` value to `int` (reduction modulo `2^32`
into the signed range, as on the twos-complement targets the code runs
on). -/
def toInt32 (n : Nat) : Int :=
  if n % 2 ^ 32 < 2 ^ 31 then ((n % 2 ^ 32 : Nat) : Int)
  else ((n % 2 ^ 32 : Nat) : Int) - 2 ^ 32

/-- `IOManager::UpdateTimer` from the source.  On an empty heap the C
function falls off the end without returning a value, modelled as `none`.
With an empty dispatch batch it runs the firing loop against the head
time and returns the current time as the new baseline.  With a nonempty
batch it computes `int ret = now` (truncating), `int diff = ret -
prev_time` (computed through uint64 arithmetic and truncated), subtracts
`diff` from every entry time (uint64 arithmetic), and returns `ret`
converted back to uint64.  Inputs are the queue, the batch size, the
previous baseline and the current wall-clock time in milliseconds. -/
def IOManager.UpdateTimer (queue : List TimerEntry) (event_sz : Nat)
    (prev_time now : Nat) :
    Option (List TimerEntry × List (Nat × Nat) × Nat) :=
  match queue with
  | [] => none
  | e :: _ =>
    if event_sz = 0 then
      let p := fireLoop queue e.time
      some (p.1, p.2, now)
    else
      let ret : Int := toInt32 now
      let subU : Nat := (toUInt64 ret + 2 ^ 64 - prev_time % 2 ^ 64) % 2 ^ 64
      let diff : Int := toInt32 subU
      some (queue.map
          (fun t => { t with time := toUInt64 ((t.time : Int) - diff) }),
        [], toUInt64 ret)

theorem natToDec_eq (n : Nat) :
    natToDec n = if n < 10 then [Char.ofNat (48 + n)]
      else natToDec (n / 10) ++ [Char.ofNat (48 + n % 10)] := by
  rw [natToDec]
  split <;> rfl

theorem digit_toNat {d : Nat} (h : d < 10) :
    (Char.ofNat (48 + d)).toNat = 48 + d := by
  interval_cases d <;> decide

theorem digit_isDigit {d : Nat} (h : d < 10) :
    isDigitChar (Char.ofNat (48 + d)) = true := by
  interval_cases d <;> decide

theorem digit_not_space {d : Nat} (h : d < 10) :
    isSpaceChar (Char.ofNat (48 + d)) = false := by
  interval_cases d <;> decide

theorem natToDec_all_digits (n : Nat) :
    ∀ c ∈ natToDec n, ∃ d, d < 10 ∧ c = Char.ofNat (48 + d) := by
  induction n using Nat.strong_induction_on with
  | _ n ih =>
    intro c hc
    rw [natToDec_eq] at hc
    by_cases h : n < 10
    · rw [if_pos h] at hc
      simp only [List.mem_singleton] at hc
      exact ⟨n, h, hc⟩
    · rw [if_neg h] at hc
      rcases List.mem_append.mp hc with h1 | h1
      · exact ih (n / 10) (Nat.div_lt_self (by omega) (by omega)) c h1
      · simp only [List.mem_singleton] at h1
        exact ⟨n % 10, Nat.mod_lt _ (by omega), h1⟩

theorem natToDec_ne_nil (n : Nat) : natToDec n ≠ [] := by
  rw [natToDec_eq]
  split <;> simp

theorem parseDigitsAcc_natToDec (n : Nat) :
    ∀ rest acc cnt,
      parseDigitsAcc (natToDec n ++ rest) acc cnt
        = parseDigitsAcc rest (acc * 10 ^ (natToDec n).length + n)
            (cnt + (natToDec n).length) := by
  induction n using Nat.strong_induction_on with
  | _ n ih =>
    intro rest acc cnt
    rw [natToDec_eq]
    by_cases h : n < 10
    · rw [if_pos h]
      simp only [List.cons_append, List.nil_append, parseDigitsAcc,
        digit_isDigit h, if_true, digit_toNat h, List.length_singleton]
      norm_num
    · rw [if_neg h]
      rw [List.append_assoc, List.cons_append, List.nil_append]
      rw [ih (n / 10) (Nat.div_lt_self (by omega) (by omega))]
      have h10 : n % 10 < 10 := Nat.mod_lt _ (by omega)
      simp only [parseDigitsAcc, digit_isDigit h10, if_true, digit_toNat h10,
        List.length_append, List.length_singleton]
      have hsub : 48 + n % 10 - 48 = n % 10 := by omega
      have hp : 10 ^ ((natToDec (n / 10)).length + 1)
          = 10 ^ (natToDec (n / 10)).length * 10 := pow_succ 10 _
      have hv : (acc * 10 ^ (natToDec (n / 10)).length + n / 10) * 10
            + (48 + n % 10 - 48)
          = acc * 10 ^ ((natToDec (n / 10)).length + 1) + n := by
        rw [hsub, hp, Nat.add_mul, ← Nat.mul_assoc, Nat.add_assoc,
          Nat.mul_comm (n / 10) 10, Nat.div_add_mod]
      rw [hv, Nat.add_assoc]

theorem parseDigitsAcc_stop {rest : List Char} (acc cnt : Nat)
    (hd : ∀ c, rest.head? = some c → isDigitChar c = false) :
    parseDigitsAcc rest acc cnt = (acc, cnt) := by
  cases rest with
  | nil => rfl
  | cons c cs =>
    simp only [parseDigitsAcc, hd c rfl]
    rfl

theorem strtolCore_natToDec (n : Nat) (rest : List Char) (pre : Nat)
    (hd : ∀ c, rest.head? = some c → isDigitChar c = false)
    (hn : (n : Int) ≤ longMax) :
    strtolCore (natToDec n ++ rest) false pre
      = ⟨(n : Int), pre + (natToDec n).length, 0⟩ := by
  unfold strtolCore
  rw [parseDigitsAcc_natToDec n rest 0 0, parseDigitsAcc_stop _ _ hd]
  have hlen : ¬((natToDec n).length = 0) := by
    simpa using natToDec_ne_nil n
  unfold strtolFinish
  simp only [Nat.zero_mul, Nat.zero_add]
  rw [if_neg hlen, if_neg (by simp), if_neg (by omega)]

theorem strtol10_natToDec (n : Nat) (rest : List Char)
    (hd : ∀ c, rest.head? = some c → isDigitChar c = false)
    (hn : (n : Int) ≤ longMax) :
    strtol10 (natToDec n ++ rest) = ⟨(n : Int), (natToDec n).length, 0⟩ := by
  obtain ⟨c, cs, hcons⟩ := List.exists_cons_of_ne_nil (natToDec_ne_nil n)
  have hcmem : c ∈ natToDec n := by
    rw [hcons]
    exact List.mem_cons_self _ _
  obtain ⟨d, hd10, hcd⟩ := natToDec_all_digits n c hcmem
  have hspace : isSpaceChar c = false := by
    rw [hcd]
    exact digit_not_space hd10
  have htn : c.toNat = 48 + d := by
    rw [hcd]
    exact digit_toNat hd10
  have hall : natToDec n ++ rest = c :: (cs ++ rest) := by
    rw [hcons]
    rfl
  have hdw : (natToDec n ++ rest).dropWhile isSpaceChar
      = natToDec n ++ rest := by
    rw [hall, List.dropWhile_cons, hspace]
    simp
  unfold strtol10
  rw [hdw]
  simp only [Nat.sub_self, hall]
  have h45 : ¬ c.toNat = 45 := by omega
  have h43 : ¬ c.toNat = 43 := by omega
  rw [if_neg h45, if_neg h43, ← hall, strtolCore_natToDec n rest 0 hd hn,
    Nat.zero_add]

theorem parseOctet_natToDec {buf : List Char} {len n : Nat}
    (rest : List Char)
    (hsplit : buf.drop len = natToDec n ++ rest)
    (hd : ∀ c, rest.head? = some c → isDigitChar c = false)
    (hn : n ≤ 255) :
    parseOctet buf len = some (n, len + (natToDec n).length) := by
  unfold parseOctet
  rw [hsplit, strtol10_natToDec n rest hd (by unfold longMax; push_cast; omega)]
  have hmod : (((n : Int) % (2 ^ 32 : Int)).toNat) = n := by omega
  simp only [ne_eq, not_true_eq_false, if_false, hmod]
  rw [if_neg (by omega)]

theorem charAt_append (xs : List Char) (c : Char) (rest : List Char) :
    charAt (xs ++ c :: rest) xs.length = c := by
  unfold charAt
  rw [List.drop_left]
  rfl

theorem charAt_of_drop {s : List Char} {i : Nat} {c : Char} {t : List Char}
    (h : s.drop i = c :: t) : charAt s i = c := by
  unfold charAt
  rw [h]
  rfl

theorem drop_add_of_drop {s t : List Char} {i : Nat} (h : s.drop i = t)
    (k : Nat) : s.drop (i + k) = t.drop k := by
  rw [← h, List.drop_drop, Nat.add_comm]

theorem testBit_small_false {x k : Nat} (hx : x < 256) (hk : 8 ≤ k) :
    x.testBit k = false := by
  have h2 : (256 : Nat) ≤ 2 ^ k := by
    calc (256 : Nat) = 2 ^ 8 := by norm_num
      _ ≤ 2 ^ k := Nat.pow_le_pow_right (by norm_num) hk
  exact Nat.testBit_eq_false_of_lt (lt_of_lt_of_le hx h2)

theorem testBit_assembled {d c b a : Nat} (hd : d < 256) (hc : c < 256)
    (hb : b < 256) (ha : a < 256) (i : Nat) :
    (d ||| (c <<< 8) ||| (b <<< 16) ||| (a <<< 24)).testBit i =
      (if i < 8 then d.testBit i else if i < 16 then c.testBit (i - 8)
       else if i < 24 then b.testBit (i - 16) else a.testBit (i - 24)) := by
  have hfalse : ∀ x j k : Nat, x < 256 → 8 ≤ k → x.testBit k = false := by
    intro x j k hx hk
    exact testBit_small_false hx hk
  simp only [Nat.testBit_lor, Nat.testBit_shiftLeft]
  rcases Nat.lt_or_ge i 8 with h1 | h1
  · rw [if_pos h1]
    have e8 : decide (8 ≤ i) = false := by simpa using (by omega : ¬ 8 ≤ i)
    have e16 : decide (16 ≤ i) = false := by simpa using (by omega : ¬ 16 ≤ i)
    have e24 : decide (24 ≤ i) = false := by simpa using (by omega : ¬ 24 ≤ i)
    rw [e8, e16, e24]
    simp
  · rcases Nat.lt_or_ge i 16 with h2 | h2
    · rw [if_neg (by omega), if_pos h2]
      have e8 : decide (8 ≤ i) = true := by simpa using h1
      have e16 : decide (16 ≤ i) = false := by
        simpa using (by omega : ¬ 16 ≤ i)
      have e24 : decide (24 ≤ i) = false := by
        simpa using (by omega : ¬ 24 ≤ i)
      rw [e8, e16, e24, hfalse d i i hd h1]
      simp
    · rcases Nat.lt_or_ge i 24 with h3 | h3
      · rw [if_neg (by omega), if_neg (by omega), if_pos h3]
        have e8 : decide (8 ≤ i) = true := by simpa using h1
        have e16 : decide (16 ≤ i) = true := by simpa using h2
        have e24 : decide (24 ≤ i) = false := by
          simpa using (by omega : ¬ 24 ≤ i)
        rw [e8, e16, e24, hfalse d i i hd h1,
          hfalse c i (i - 8) hc (by omega)]
        simp
      · rw [if_neg (by omega), if_neg (by omega), if_neg (by omega)]
        have e8 : decide (8 ≤ i) = true := by simpa using h1
        have e16 : decide (16 ≤ i) = true := by simpa using h2
        have e24 : decide (24 ≤ i) = true := by simpa using h3
        rw [e8, e16, e24, hfalse d i i hd h1,
          hfalse c i (i - 8) hc (by omega), hfalse b i (i - 16) hb (by omega)]
        simp

theorem testBit_255 (i : Nat) : Nat.testBit 255 i = decide (i < 8) := by
  have h : (255 : Nat) = 2 ^ 8 - 1 := by norm_num
  rw [h, Nat.testBit_two_pow_sub_one]

theorem byteExtract0 {d c b a : Nat} (hd : d < 256) (hc : c < 256)
    (hb : b < 256) (ha : a < 256) :
    (d ||| (c <<< 8) ||| (b <<< 16) ||| (a <<< 24)) &&& 255 = d := by
  apply Nat.eq_of_testBit_eq
  intro i
  rw [Nat.testBit_land, testBit_assembled hd hc hb ha i, testBit_255]
  rcases Nat.lt_or_ge i 8 with h | h
  · simp [h]
  · rw [if_neg (by omega)]
    have hni : ¬ i < 8 := by omega
    simp [testBit_small_false hd h, hni]

theorem byteExtract8 {d c b a : Nat} (hd : d < 256) (hc : c < 256)
    (hb : b < 256) (ha : a < 256) :
    ((d ||| (c <<< 8) ||| (b <<< 16) ||| (a <<< 24)) >>> 8) &&& 255 = c := by
  apply Nat.eq_of_testBit_eq
  intro i
  rw [Nat.testBit_land, Nat.testBit_shiftRight,
    testBit_assembled hd hc hb ha (8 + i), testBit_255]
  rcases Nat.lt_or_ge i 8 with h | h
  · rw [if_neg (by omega), if_pos (by omega)]
    simp [h, Nat.add_sub_cancel_left]
  · have hni : ¬ i < 8 := by omega
    rw [testBit_small_false hc h]
    simp [hni]

theorem byteExtract16 {d c b a : Nat} (hd : d < 256) (hc : c < 256)
    (hb : b < 256) (ha : a < 256) :
    ((d ||| (c <<< 8) ||| (b <<< 16) ||| (a <<< 24)) >>> 16) &&& 255 = b := by
  apply Nat.eq_of_testBit_eq
  intro i
  rw [Nat.testBit_land, Nat.testBit_shiftRight,
    testBit_assembled hd hc hb ha (16 + i), testBit_255]
  rcases Nat.lt_or_ge i 8 with h | h
  · rw [if_neg (by omega), if_neg (by omega), if_pos (by omega)]
    simp [h, show 16 + i - 16 = i by omega]
  · have hni : ¬ i < 8 := by omega
    rw [testBit_small_false hb h]
    simp [hni]

theorem byteExtract24 {d c b a : Nat} (hd : d < 256) (hc : c < 256)
    (hb : b < 256) (ha : a < 256) :
    ((d ||| (c <<< 8) ||| (b <<< 16) ||| (a <<< 24)) >>> 24) &&& 255 = a := by
  apply Nat.eq_of_testBit_eq
  intro i
  rw [Nat.testBit_land, Nat.testBit_shiftRight,
    testBit_assembled hd hc hb ha (24 + i), testBit_255]
  rcases Nat.lt_or_ge i 8 with h | h
  · rw [if_neg (by omega), if_neg (by omega), if_neg (by omega)]
    simp [h, show 24 + i - 24 = i by omega]
  · have hni : ¬ i < 8 := by omega
    rw [testBit_small_false ha h]
    simp [hni]

end Mnet

namespace Mnet

/-- C4 counterexample: for the buffer with bytes [7, 8, 9, 0], read offset
0, write offset 3 (readable size 3) and a request of 5, `Buffer::Read`
leaves the stored size at 5 — it never writes the consumed amount
min(5, 3) = 3 back — and the final read offset is 0 after the rewind, not
0 + 3 as an advance by min(5, 3) would give.  This falsifies the claim
that `Read` advances `read_ptr` by min(n, readable_size) and stores the
actual consumed amount back into `*n`. -/
theorem C4_counterexample :
    ¬ ((Buffer.Read ⟨[7, 8, 9, 0], 0, 3, false⟩ 5).2.2
          = min 5 (Buffer.readable_size ⟨[7, 8, 9, 0], 0, 3, false⟩)
        ∧ (Buffer.Read ⟨[7, 8, 9, 0], 0, 3, false⟩ 5).1.read_ptr
          = 0 + min 5 (Buffer.readable_size ⟨[7, 8, 9, 0], 0, 3, false⟩)) := by
  decide

/-- C4 (amended): `Buffer::Read(&n)` consumes min(n, readable_size)
bytes: the returned pointer is the old read offset into the unchanged
backing data; the read offset advances by the consumed amount and then
both offsets rewind to zero exactly when the readable span has emptied;
the stored `*n` is left unchanged (the actual consumed amount is not
written back). -/
theorem C4_read_contract (b : Buffer) (n : Nat) (hwf : b.wf) :
    (b.Read n).2.1 = b.read_ptr ∧
    (b.Read n).2.2 = n ∧
    (b.Read n).1.data = b.data ∧
    (b.Read n).1.is_fixed = b.is_fixed ∧
    (b.readable_size ≤ n →
      (b.Read n).1.read_ptr = 0 ∧ (b.Read n).1.write_ptr = 0) ∧
    (n < b.readable_size →
      (b.Read n).1.read_ptr = b.read_ptr + n ∧
      (b.Read n).1.write_ptr = b.write_ptr) := by
  obtain ⟨h1, h2⟩ := hwf
  unfold Buffer.capacity at h2
  simp only [Buffer.Read, Buffer.RewindBuffer, Buffer.readable_size]
  refine ⟨trivial, trivial, ?_, ?_, ?_, ?_⟩
  · split <;> rfl
  · split <;> rfl
  · intro hle
    split
    · exact ⟨rfl, rfl⟩
    · exfalso
      omega
  · intro hlt
    split
    · exfalso
      omega
    · refine ⟨?_, rfl⟩
      show b.read_ptr + min n (b.write_ptr - b.read_ptr) = b.read_ptr + n
      omega

/-- C4 witness: the amended contract applied to the buffer with bytes
[7, 8, 9, 0], offsets 1 and 3, and request 1. -/
theorem C4_read_contract_witness :
    ((⟨[7, 8, 9, 0], 1, 3, false⟩ : Buffer).Read 1).2.1 = 1 ∧
    ((⟨[7, 8, 9, 0], 1, 3, false⟩ : Buffer).Read 1).2.2 = 1 ∧
    ((⟨[7, 8, 9, 0], 1, 3, false⟩ : Buffer).Read 1).1.data = [7, 8, 9, 0] ∧
    ((⟨[7, 8, 9, 0], 1, 3, false⟩ : Buffer).Read 1).1.is_fixed = false ∧
    (Buffer.readable_size ⟨[7, 8, 9, 0], 1, 3, false⟩ ≤ 1 →
      ((⟨[7, 8, 9, 0], 1, 3, false⟩ : Buffer).Read 1).1.read_ptr = 0 ∧
      ((⟨[7, 8, 9, 0], 1, 3, false⟩ : Buffer).Read 1).1.write_ptr = 0) ∧
    (1 < Buffer.readable_size ⟨[7, 8, 9, 0], 1, 3, false⟩ →
      ((⟨[7, 8, 9, 0], 1, 3, false⟩ : Buffer).Read 1).1.read_ptr = 1 + 1 ∧
      ((⟨[7, 8, 9, 0], 1, 3, false⟩ : Buffer).Read 1).1.write_ptr = 3) :=
  C4_read_contract ⟨[7, 8, 9, 0], 1, 3, false⟩ 1 (by decide)

end Mnet

namespace Mnet

/-- C6 counterexample, two instances.  First: for the non-fixed buffer of
capacity 4 with read offset 1 and write offset 3 (readable 2, writable 1),
injecting 3 bytes succeeds but the capacity becomes 5 = readable + 3, a
growth of 1, not of exactly 3 as claimed.  Second: for the non-fixed
buffer of capacity 10 with write offset 2, injecting 3 bytes succeeds
without growth and leaves write_ptr = 5 and capacity 10, so the claimed
post-condition write_ptr == capacity fails on success. -/
theorem C6_counterexample :
    ((Buffer.Inject ⟨[0, 0, 0, 0], 1, 3, false⟩ [5, 5, 5] 3).2 = true ∧
      Buffer.capacity (Buffer.Inject ⟨[0, 0, 0, 0], 1, 3, false⟩ [5, 5, 5] 3).1
        = 5 ∧
      Buffer.capacity ⟨[0, 0, 0, 0], 1, 3, false⟩ = 4) ∧
    ((Buffer.Inject ⟨[0, 0, 0, 0, 0, 0, 0, 0, 0, 0], 0, 2, false⟩
        [1, 2, 3] 3).2 = true ∧
      (Buffer.Inject ⟨[0, 0, 0, 0, 0, 0, 0, 0, 0, 0], 0, 2, false⟩
        [1, 2, 3] 3).1.write_ptr = 5 ∧
      Buffer.capacity (Buffer.Inject ⟨[0, 0, 0, 0, 0, 0, 0, 0, 0, 0], 0, 2,
        false⟩ [1, 2, 3] 3).1 = 10) := by
  decide

/-- C6 (amended): `Buffer::Inject(src, n)` fails exactly when the buffer
is fixed and n exceeds the writable size, and leaves the buffer untouched
then; on success it appends exactly the n source bytes to the readable
region; when growth was needed the new capacity is readable_size + n (the
grow request is exactly n, with no doubling) and then write_ptr equals
the capacity; without growth the capacity is unchanged and write_ptr
advances by n (so write_ptr == capacity need not hold). -/
theorem C6_inject_contract (b : Buffer) (src : List Nat) (n : Nat)
    (hwf : b.wf) (hsrc : n ≤ src.length) :
    ((b.Inject src n).2 = false ↔ b.is_fixed = true ∧ b.writable_size < n) ∧
    ((b.Inject src n).2 = false → (b.Inject src n).1 = b) ∧
    ((b.Inject src n).2 = true →
      Buffer.readable_size (b.Inject src n).1 = b.readable_size + n ∧
      Buffer.readableRegion (b.Inject src n).1
        = b.readableRegion ++ src.take n ∧
      (b.writable_size < n →
        Buffer.capacity (b.Inject src n).1 = b.readable_size + n ∧
        (b.Inject src n).1.write_ptr = Buffer.capacity (b.Inject src n).1) ∧
      (n ≤ b.writable_size →
        Buffer.capacity (b.Inject src n).1 = b.capacity ∧
        (b.Inject src n).1.write_ptr = b.write_ptr + n)) := by
  obtain ⟨h1, h2⟩ := hwf
  unfold Buffer.capacity at h2
  have hBlen : (src.take n).length = n := by
    simp [List.length_take]
    omega
  by_cases hg : b.writable_size < n
  · by_cases hf : b.is_fixed
    · have hres : b.Inject src n = (b, false) := by
        unfold Buffer.Inject
        rw [if_pos hg, if_pos hf]
      rw [hres]
      refine ⟨by simp [hf, hg], fun _ => rfl, fun hc => by simp at hc⟩
    · have hn0 : ¬ (n = 0) := by
        unfold Buffer.writable_size at hg
        omega
      have hRlen : ((b.data.drop b.read_ptr).take b.readable_size).length
          = b.readable_size := by
        unfold Buffer.readable_size
        simp [List.length_take, List.length_drop]
        omega
      have hfinal : b.Inject src n
          = (⟨(b.data.drop b.read_ptr).take b.readable_size ++ src.take n, 0,
              b.readable_size + n, b.is_fixed⟩, true) := by
        unfold Buffer.Inject
        rw [if_pos hg, if_neg hf]
        unfold Buffer.Grow
        rw [if_neg hn0]
        unfold Buffer.writeBytes
        simp only [Prod.mk.injEq, Buffer.mk.injEq, and_true, true_and]
        have hTK : ((b.data.drop b.read_ptr).take b.readable_size
              ++ List.replicate n 0).take b.readable_size
            = (b.data.drop b.read_ptr).take b.readable_size :=
          List.take_left' hRlen
        have hDR : ((b.data.drop b.read_ptr).take b.readable_size
              ++ List.replicate n 0).drop (b.readable_size + n) = [] :=
          List.drop_eq_nil_of_le (by simp [hRlen])
        rw [hTK, hDR, List.append_nil]
      rw [hfinal]
      have hcap : Buffer.capacity (⟨(b.data.drop b.read_ptr).take
            b.readable_size ++ src.take n, 0, b.readable_size + n,
            b.is_fixed⟩ : Buffer) = b.readable_size + n := by
        unfold Buffer.capacity
        simp [hRlen, hBlen]
      have hrs : Buffer.readable_size (⟨(b.data.drop b.read_ptr).take
            b.readable_size ++ src.take n, 0, b.readable_size + n,
            b.is_fixed⟩ : Buffer) = b.readable_size + n := by
        simp [Buffer.readable_size]
      refine ⟨by simp [hf], by simp, fun _ => ?_⟩
      refine ⟨hrs, ?_, fun _ => ⟨hcap, by rw [hcap]⟩,
        fun hc => absurd hc (by omega)⟩
      unfold Buffer.readableRegion
      rw [hrs]
      simp only [List.drop_zero]
      rw [List.take_of_length_le (by simp [hRlen, hBlen])]
  · have hfinal : b.Inject src n
        = (⟨b.data.take b.write_ptr ++ src.take n ++
            b.data.drop (b.write_ptr + n), b.read_ptr, b.write_ptr + n,
            b.is_fixed⟩, true) := by
      unfold Buffer.Inject
      rw [if_neg hg]
      rfl
    have hg2 : ¬ (b.data.length - b.write_ptr < n) := by
      unfold Buffer.writable_size Buffer.capacity at hg
      exact hg
    have hwn : b.write_ptr + n ≤ b.data.length := by omega
    have hAlen : (b.data.take b.write_ptr).length = b.write_ptr := by
      simp [List.length_take]
      omega
    rw [hfinal]
    have hcap : Buffer.capacity (⟨b.data.take b.write_ptr ++ src.take n ++
          b.data.drop (b.write_ptr + n), b.read_ptr, b.write_ptr + n,
          b.is_fixed⟩ : Buffer) = b.capacity := by
      unfold Buffer.capacity
      simp [hAlen, hBlen, List.length_drop]
      omega
    have hrs : Buffer.readable_size (⟨b.data.take b.write_ptr ++ src.take n ++
          b.data.drop (b.write_ptr + n), b.read_ptr, b.write_ptr + n,
          b.is_fixed⟩ : Buffer) = b.readable_size + n := by
      simp [Buffer.readable_size]
      omega
    refine ⟨by simp [hg], by simp, fun _ => ?_⟩
    refine ⟨hrs, ?_, fun hc => absurd hc hg, fun _ => ⟨hcap, rfl⟩⟩
    unfold Buffer.readableRegion
    rw [hrs]
    simp only
    rw [List.append_assoc]
    rw [List.drop_append_of_le_length (by rw [hAlen]; exact h1)]
    have hDlen : ((b.data.take b.write_ptr).drop b.read_ptr).length
        = b.write_ptr - b.read_ptr := by
      simp [List.length_drop, hAlen]
    have hidx : b.readable_size + n
        = ((b.data.take b.write_ptr).drop b.read_ptr).length + n := by
      simp [hDlen, Buffer.readable_size]
    rw [hidx, List.take_append n, List.take_left' hBlen]
    have hreg : (b.data.take b.write_ptr).drop b.read_ptr
        = b.readableRegion := by
      unfold Buffer.readableRegion Buffer.readable_size
      exact List.drop_take b.write_ptr b.read_ptr b.data
    rw [hreg]
    unfold Buffer.readableRegion Buffer.readable_size
    rfl

end Mnet

namespace Mnet

/-- C6 witness: the amended Inject contract applied to the non-fixed
buffer of capacity 4 with offsets 1 and 3, injecting 3 bytes. -/
theorem C6_inject_contract_witness :
    ((Buffer.Inject ⟨[0, 0, 0, 0], 1, 3, false⟩ [5, 5, 5] 3).2 = false ↔
      (⟨[0, 0, 0, 0], 1, 3, false⟩ : Buffer).is_fixed = true ∧
        Buffer.writable_size ⟨[0, 0, 0, 0], 1, 3, false⟩ < 3) ∧
    ((Buffer.Inject ⟨[0, 0, 0, 0], 1, 3, false⟩ [5, 5, 5] 3).2 = false →
      (Buffer.Inject ⟨[0, 0, 0, 0], 1, 3, false⟩ [5, 5, 5] 3).1
        = ⟨[0, 0, 0, 0], 1, 3, false⟩) ∧
    ((Buffer.Inject ⟨[0, 0, 0, 0], 1, 3, false⟩ [5, 5, 5] 3).2 = true →
      Buffer.readable_size
          (Buffer.Inject ⟨[0, 0, 0, 0], 1, 3, false⟩ [5, 5, 5] 3).1
        = Buffer.readable_size ⟨[0, 0, 0, 0], 1, 3, false⟩ + 3 ∧
      Buffer.readableRegion
          (Buffer.Inject ⟨[0, 0, 0, 0], 1, 3, false⟩ [5, 5, 5] 3).1
        = Buffer.readableRegion ⟨[0, 0, 0, 0], 1, 3, false⟩
            ++ [5, 5, 5].take 3 ∧
      (Buffer.writable_size ⟨[0, 0, 0, 0], 1, 3, false⟩ < 3 →
        Buffer.capacity (Buffer.Inject ⟨[0, 0, 0, 0], 1, 3, false⟩
            [5, 5, 5] 3).1
          = Buffer.readable_size ⟨[0, 0, 0, 0], 1, 3, false⟩ + 3 ∧
        (Buffer.Inject ⟨[0, 0, 0, 0], 1, 3, false⟩ [5, 5, 5] 3).1.write_ptr
          = Buffer.capacity (Buffer.Inject ⟨[0, 0, 0, 0], 1, 3, false⟩
              [5, 5, 5] 3).1) ∧
      (3 ≤ Buffer.writable_size ⟨[0, 0, 0, 0], 1, 3, false⟩ →
        Buffer.capacity (Buffer.Inject ⟨[0, 0, 0, 0], 1, 3, false⟩
            [5, 5, 5] 3).1
          = Buffer.capacity ⟨[0, 0, 0, 0], 1, 3, false⟩ ∧
        (Buffer.Inject ⟨[0, 0, 0, 0], 1, 3, false⟩ [5, 5, 5] 3).1.write_ptr
          = (⟨[0, 0, 0, 0], 1, 3, false⟩ : Buffer).write_ptr + 3)) :=
  C6_inject_contract ⟨[0, 0, 0, 0], 1, 3, false⟩ [5, 5, 5] 3 (by decide)
    (by decide)

end Mnet

namespace Mnet

theorem head_dot_nondigit (t : List Char) :
    ∀ ch, ((Char.ofNat 46) :: t).head? = some ch → isDigitChar ch = false := by
  intro ch hch
  rw [List.head?_cons] at hch
  injection hch with hh
  rw [← hh]
  decide

theorem head_nil_nondigit :
    ∀ ch, ([] : List Char).head? = some ch → isDigitChar ch = false := by
  intro ch hch
  simp at hch

theorem stringToIpv4_fail_shape (ep : Endpoint) (buf : List Char)
    (h : (Endpoint.StringToIpv4 ep buf).2 = -1) :
    (Endpoint.StringToIpv4 ep buf).1 = { ep with port := kEndpointError } := by
  unfold Endpoint.StringToIpv4 at h ⊢
  rcases h1 : parseOctet buf 0 with _ | ⟨c1, p1⟩
  · simp only [h1]
  · simp only [h1] at h ⊢
    rcases h2 : checkDot buf p1 with _ | l2
    · simp only [h2]
    · simp only [h2] at h ⊢
      rcases h3 : parseOctet buf l2 with _ | ⟨c2, p2⟩
      · simp only [h3]
      · simp only [h3] at h ⊢
        rcases h4 : checkDot buf p2 with _ | l3
        · simp only [h4]
        · simp only [h4] at h ⊢
          rcases h5 : parseOctet buf l3 with _ | ⟨c3, p3⟩
          · simp only [h5]
          · simp only [h5] at h ⊢
            rcases h6 : checkDot buf p3 with _ | l4
            · simp only [h6]
            · simp only [h6] at h ⊢
              rcases h7 : parseOctet buf l4 with _ | ⟨c4, p4⟩
              · simp only [h7]
              · simp only [h7] at h
                exfalso
                omega

theorem parseOctet_none_iff (buf : List Char) (len : Nat) :
    parseOctet buf len = none ↔
      ((strtol10 (buf.drop len)).err ≠ 0 ∨
        ((strtol10 (buf.drop len)).value % (2 ^ 32 : Int)).toNat > 255) := by
  unfold parseOctet
  by_cases he : (strtol10 (buf.drop len)).err ≠ 0
  · simp [he]
  · by_cases hc :
        ((strtol10 (buf.drop len)).value % (2 ^ 32 : Int)).toNat > 255
    · simp [he, hc]
    · simp [he, hc]

theorem stringToIpv4_head_reject (ep : Endpoint) (buf : List Char)
    (he : (strtol10 buf).err = 0)
    (hv : ((strtol10 buf).value % (2 ^ 32 : Int)).toNat > 255) :
    Endpoint.StringToIpv4 ep buf = ({ ep with port := kEndpointError }, -1) := by
  have hnone : parseOctet buf 0 = none := by
    rw [parseOctet_none_iff]
    rw [List.drop_zero]
    right
    exact hv
  unfold Endpoint.StringToIpv4
  simp only [hnone]

theorem stringToPort_fail (ep : Endpoint) (buf : List Char)
    (h : (strtol10 buf).err ≠ 0 ∨
      ((strtol10 buf).value > 65535 ∨ (strtol10 buf).value < 0)) :
    Endpoint.StringToPort ep buf = ({ ep with port := kEndpointError }, -1) := by
  unfold Endpoint.StringToPort
  by_cases he : (strtol10 buf).err ≠ 0
  · rw [if_pos he]
  · rw [if_neg he]
    rcases h with h | h
    · exact absurd h he
    · rw [if_pos h]

/-- C8 counterexample: the string "1.2.3.x", whose fourth address
component is the non-numeric character x, is parsed successfully by
`Endpoint::StringToIpv4` — the return value is 6, not -1, and the port
field is left alone rather than set to the sentinel (strtol parses the
fourth component as 0 and no dot check follows it).  This falsifies the
claim that parsing fails whenever any component is non-numeric. -/
theorem C8_counterexample :
    isDigitChar (Char.ofNat 120) = false ∧
    (Endpoint.StringToIpv4 ⟨0, 0⟩ [Char.ofNat 49, Char.ofNat 46,
        Char.ofNat 50, Char.ofNat 46, Char.ofNat 51, Char.ofNat 46,
        Char.ofNat 120]).2 = 6 ∧
    (Endpoint.StringToIpv4 ⟨0, 0⟩ [Char.ofNat 49, Char.ofNat 46,
        Char.ofNat 50, Char.ofNat 46, Char.ofNat 51, Char.ofNat 46,
        Char.ofNat 120]).1.port ≠ kEndpointError ∧
    (Endpoint.StringToIpv4 ⟨0, 0⟩ [Char.ofNat 49, Char.ofNat 46,
        Char.ofNat 50, Char.ofNat 46, Char.ofNat 51, Char.ofNat 46,
        Char.ofNat 120]).1.ipv4 = 3 * 256 + 2 * 65536 + 1 * 16777216 := by
  decide

/-- C8 (amended): parsing fails — setting the port field to
kEndpointError and returning -1 — whenever an address octet (converted to
uint32) exceeds 255 or strtol reports an error on it, or a port exceeds
65535, is negative, or strtol reports an error on it; every failing parse
marks the port with the sentinel.  A merely non-numeric component is not
itself rejected: each octet parse fails exactly for the range/errno
reasons above (a non-numeric fourth octet or port parses as 0 and
succeeds, as the counterexample shows). -/
theorem C8_parse_rejects_ranges :
    (∀ ep buf, (Endpoint.StringToIpv4 ep buf).2 = -1 →
      (Endpoint.StringToIpv4 ep buf).1.port = kEndpointError) ∧
    (∀ buf len, parseOctet buf len = none ↔
      ((strtol10 (buf.drop len)).err ≠ 0 ∨
        ((strtol10 (buf.drop len)).value % (2 ^ 32 : Int)).toNat > 255)) ∧
    (∀ ep buf, (strtol10 buf).err = 0 →
      ((strtol10 buf).value % (2 ^ 32 : Int)).toNat > 255 →
      Endpoint.StringToIpv4 ep buf
        = ({ ep with port := kEndpointError }, -1)) ∧
    (∀ ep buf, (strtol10 buf).value > 65535 ∨ (strtol10 buf).value < 0 →
      Endpoint.StringToPort ep buf
        = ({ ep with port := kEndpointError }, -1)) ∧
    (∀ ep buf, (strtol10 buf).err ≠ 0 →
      Endpoint.StringToPort ep buf
        = ({ ep with port := kEndpointError }, -1)) := by
  refine ⟨?_, parseOctet_none_iff, stringToIpv4_head_reject, ?_, ?_⟩
  · intro ep buf h
    rw [stringToIpv4_fail_shape ep buf h]
  · intro ep buf h
    exact stringToPort_fail ep buf (Or.inr h)
  · intro ep buf h
    exact stringToPort_fail ep buf (Or.inl h)

/-- C8 witness: the amended theorem applied to the out-of-range octet
string "300.1.1.1" and the out-of-range port string "70000". -/
theorem C8_parse_rejects_ranges_witness :
    Endpoint.StringToIpv4 ⟨0, 0⟩ [Char.ofNat 51, Char.ofNat 48,
        Char.ofNat 48, Char.ofNat 46, Char.ofNat 49, Char.ofNat 46,
        Char.ofNat 49, Char.ofNat 46, Char.ofNat 49]
      = ({ (⟨0, 0⟩ : Endpoint) with port := kEndpointError }, -1) ∧
    Endpoint.StringToPort ⟨0, 0⟩ [Char.ofNat 55, Char.ofNat 48,
        Char.ofNat 48, Char.ofNat 48, Char.ofNat 48]
      = ({ (⟨0, 0⟩ : Endpoint) with port := kEndpointError }, -1) :=
  ⟨C8_parse_rejects_ranges.2.2.1 ⟨0, 0⟩ _ (by decide) (by decide),
    C8_parse_rejects_ranges.2.2.2.1 ⟨0, 0⟩ _ (by decide)⟩

/-- C10: whenever `Endpoint::StringToIpv4` fails (returns -1), the stored
ipv4 field is left unchanged — it is assigned only after all four
components parse — and the failure is recorded solely by overwriting the
port field with kEndpointError. -/
theorem C10_fail_marks_port_only (ep : Endpoint) (buf : List Char)
    (h : (Endpoint.StringToIpv4 ep buf).2 = -1) :
    (Endpoint.StringToIpv4 ep buf).1.ipv4 = ep.ipv4 ∧
    (Endpoint.StringToIpv4 ep buf).1 = { ep with port := kEndpointError } := by
  have h2 := stringToIpv4_fail_shape ep buf h
  exact ⟨by rw [h2], h2⟩

/-- C10 witness: the failure contract applied to the endpoint (7, 9) and
the rejected string "300.1.1.1". -/
theorem C10_fail_marks_port_only_witness :
    (Endpoint.StringToIpv4 ⟨7, 9⟩ [Char.ofNat 51, Char.ofNat 48,
        Char.ofNat 48, Char.ofNat 46, Char.ofNat 49, Char.ofNat 46,
        Char.ofNat 49, Char.ofNat 46, Char.ofNat 49]).1.ipv4 = 7 ∧
    (Endpoint.StringToIpv4 ⟨7, 9⟩ [Char.ofNat 51, Char.ofNat 48,
        Char.ofNat 48, Char.ofNat 46, Char.ofNat 49, Char.ofNat 46,
        Char.ofNat 49, Char.ofNat 46, Char.ofNat 49]).1
      = { (⟨7, 9⟩ : Endpoint) with port := kEndpointError } :=
  C10_fail_marks_port_only ⟨7, 9⟩ _ (by decide)

end Mnet

namespace Mnet

theorem stringToIpv4_dottedQuad (ep : Endpoint) (a b c d : Nat)
    (ha : a ≤ 255) (hb : b ≤ 255) (hc : c ≤ 255) (hd : d ≤ 255) :
    Endpoint.StringToIpv4 ep (dottedQuad a b c d)
      = ({ ep with ipv4 := d ||| (c <<< 8) ||| (b <<< 16) ||| (a <<< 24) },
        (((natToDec a).length + 1 + (natToDec b).length + 1
          + (natToDec c).length + 1 + (natToDec d).length : Nat) : Int)) := by
  have hlm : ∀ m : Nat, m ≤ 255 → (m : Int) ≤ longMax := by
    intro m hm
    unfold longMax
    push_cast
    omega
  have d1 : (dottedQuad a b c d).drop (natToDec a).length
      = Char.ofNat 46 :: (natToDec b ++ Char.ofNat 46 ::
          (natToDec c ++ Char.ofNat 46 :: natToDec d)) := by
    unfold dottedQuad
    exact List.drop_left _ _
  have hp1 : parseOctet (dottedQuad a b c d) 0
      = some (a, 0 + (natToDec a).length) := by
    refine parseOctet_natToDec (Char.ofNat 46 :: (natToDec b ++
        Char.ofNat 46 :: (natToDec c ++ Char.ofNat 46 :: natToDec d)))
      ?_ (head_dot_nondigit _) ha
    rw [List.drop_zero]
    unfold dottedQuad
    rfl
  rw [Nat.zero_add] at hp1
  have hc1 : checkDot (dottedQuad a b c d) (natToDec a).length
      = some ((natToDec a).length + 1) := by
    unfold checkDot
    rw [charAt_of_drop d1, if_pos rfl]
  have d2 : (dottedQuad a b c d).drop ((natToDec a).length + 1)
      = natToDec b ++ Char.ofNat 46 ::
          (natToDec c ++ Char.ofNat 46 :: natToDec d) := by
    simpa using drop_add_of_drop d1 1
  have hp2 : parseOctet (dottedQuad a b c d) ((natToDec a).length + 1)
      = some (b, (natToDec a).length + 1 + (natToDec b).length) :=
    parseOctet_natToDec _ d2 (head_dot_nondigit _) hb
  have d3 : (dottedQuad a b c d).drop
      ((natToDec a).length + 1 + (natToDec b).length)
      = Char.ofNat 46 :: (natToDec c ++ Char.ofNat 46 :: natToDec d) := by
    have h := drop_add_of_drop d2 (natToDec b).length
    rw [List.drop_left] at h
    exact h
  have hc2 : checkDot (dottedQuad a b c d)
      ((natToDec a).length + 1 + (natToDec b).length)
      = some ((natToDec a).length + 1 + (natToDec b).length + 1) := by
    unfold checkDot
    rw [charAt_of_drop d3, if_pos rfl]
  have d4 : (dottedQuad a b c d).drop
      ((natToDec a).length + 1 + (natToDec b).length + 1)
      = natToDec c ++ Char.ofNat 46 :: natToDec d := by
    simpa using drop_add_of_drop d3 1
  have hp3 : parseOctet (dottedQuad a b c d)
      ((natToDec a).length + 1 + (natToDec b).length + 1)
      = some (c, (natToDec a).length + 1 + (natToDec b).length + 1
          + (natToDec c).length) :=
    parseOctet_natToDec _ d4 (head_dot_nondigit _) hc
  have d5 : (dottedQuad a b c d).drop
      ((natToDec a).length + 1 + (natToDec b).length + 1
        + (natToDec c).length)
      = Char.ofNat 46 :: natToDec d := by
    have h := drop_add_of_drop d4 (natToDec c).length
    rw [List.drop_left] at h
    exact h
  have hc3 : checkDot (dottedQuad a b c d)
      ((natToDec a).length + 1 + (natToDec b).length + 1
        + (natToDec c).length)
      = some ((natToDec a).length + 1 + (natToDec b).length + 1
          + (natToDec c).length + 1) := by
    unfold checkDot
    rw [charAt_of_drop d5, if_pos rfl]
  have d6 : (dottedQuad a b c d).drop
      ((natToDec a).length + 1 + (natToDec b).length + 1
        + (natToDec c).length + 1)
      = natToDec d ++ [] := by
    rw [List.append_nil]
    simpa using drop_add_of_drop d5 1
  have hp4 : parseOctet (dottedQuad a b c d)
      ((natToDec a).length + 1 + (natToDec b).length + 1
        + (natToDec c).length + 1)
      = some (d, (natToDec a).length + 1 + (natToDec b).length + 1
          + (natToDec c).length + 1 + (natToDec d).length) :=
    parseOctet_natToDec _ d6 head_nil_nondigit hd
  unfold Endpoint.StringToIpv4
  simp only [hp1, hc1, hp2, hc2, hp3, hc3, hp4]

/-- C9: for all octets in [0, 255] and ports in [0, 65535], parsing the
canonical dotted-quad (resp. decimal port) string and formatting the
result back yields the original string, and both parses succeed (return a
nonnegative consumed count rather than -1). -/
theorem C9_endpoint_roundtrip (a b c d p : Nat) (ep : Endpoint)
    (ha : a ≤ 255) (hb : b ≤ 255) (hc : c ≤ 255) (hd : d ≤ 255)
    (hp : p ≤ 65535) :
    0 ≤ (Endpoint.StringToIpv4 ep (dottedQuad a b c d)).2 ∧
    Endpoint.Ipv4ToString (Endpoint.StringToIpv4 ep (dottedQuad a b c d)).1
      = dottedQuad a b c d ∧
    0 ≤ (Endpoint.StringToPort ep (natToDec p)).2 ∧
    Endpoint.PortToString (Endpoint.StringToPort ep (natToDec p)).1
      = natToDec p := by
  have h4 := stringToIpv4_dottedQuad ep a b c d ha hb hc hd
  have hport : Endpoint.StringToPort ep (natToDec p)
      = ({ ep with port := p }, ((natToDec p).length : Int)) := by
    unfold Endpoint.StringToPort
    have hs : strtol10 (natToDec p) = ⟨(p : Int), (natToDec p).length, 0⟩ := by
      have h := strtol10_natToDec p [] head_nil_nondigit
        (by unfold longMax; push_cast; omega)
      rw [List.append_nil] at h
      exact h
    rw [hs]
    rw [if_neg (by simp), if_neg (by push_cast; omega)]
    simp
  refine ⟨by rw [h4]; positivity, ?_, by rw [hport]; positivity, ?_⟩
  · rw [h4]
    unfold Endpoint.Ipv4ToString
    simp only
    rw [byteExtract0 (by omega) (by omega) (by omega) (by omega),
      byteExtract8 (by omega) (by omega) (by omega) (by omega),
      byteExtract16 (by omega) (by omega) (by omega) (by omega),
      byteExtract24 (by omega) (by omega) (by omega) (by omega)]
    unfold dottedQuad
    simp [List.append_assoc]
  · rw [hport]
    unfold Endpoint.PortToString
    rfl

/-- C9 witness: the round trip at the address 1.2.3.4 and port 80. -/
theorem C9_endpoint_roundtrip_witness :
    0 ≤ (Endpoint.StringToIpv4 ⟨0, 0⟩ (dottedQuad 1 2 3 4)).2 ∧
    Endpoint.Ipv4ToString
        (Endpoint.StringToIpv4 ⟨0, 0⟩ (dottedQuad 1 2 3 4)).1
      = dottedQuad 1 2 3 4 ∧
    0 ≤ (Endpoint.StringToPort ⟨0, 0⟩ (natToDec 80)).2 ∧
    Endpoint.PortToString
        (Endpoint.StringToPort ⟨0, 0⟩ (natToDec 80)).1
      = natToDec 80 :=
  C9_endpoint_roundtrip 1 2 3 4 80 ⟨0, 0⟩ (by decide) (by decide) (by decide)
    (by decide) (by decide)

end Mnet

namespace Mnet

theorem doReadLoop_can_read (swap_size : Nat) :
    ∀ (trace : List ReadvRes) (st : SockReadState) (acc : Nat)
      (st' : SockReadState) (acc' : Nat) (ns : NetState) (ex : ReadExit),
      DoReadLoop swap_size trace st acc = some (st', acc', ns, ex) →
      (st'.can_read = false ↔
        (ex = ReadExit.eagain ∨ (∃ sz bd, ex = ReadExit.shortRead sz bd)
          ∨ st.can_read = false)) ∧
      (∀ sz bd, ex = ReadExit.shortRead sz bd → 0 < sz ∧ sz < bd) := by
  intro trace
  induction trace with
  | nil =>
    intro st acc st' acc' ns ex h
    simp [DoReadLoop] at h
  | cons r rest ih =>
    intro st acc st' acc' ns ex h
    cases r with
    | err e =>
      rw [DoReadLoop] at h
      by_cases h1 : e = EAGAIN ∨ e = EWOULDBLOCK
      · rw [if_pos h1] at h
        injection h with h
        injection h with h2 h3
        injection h3 with h4 h5
        injection h5 with h6 h7
        subst h2
        subst h7
        simp
      · rw [if_neg h1] at h
        by_cases h2 : e = EINTR
        · rw [if_pos h2] at h
          exact ih st acc st' acc' ns ex h
        · rw [if_neg h2] at h
          injection h with h
          injection h with h3 h4
          injection h4 with h5 h6
          injection h6 with h7 h8
          subst h3
          subst h8
          simp
    | ok bytes =>
      rw [DoReadLoop] at h
      by_cases h0 : bytes.length = 0
      · rw [if_pos h0] at h
        injection h with h
        injection h with h2 h3
        injection h3 with h4 h5
        injection h5 with h6 h7
        subst h2
        subst h7
        simp
      · rw [if_neg h0] at h
        simp only at h
        by_cases h1 : bytes.length ≤ st.rbuf.writable_size
        · rw [if_pos h1] at h
          by_cases h2 : bytes.length < swap_size + st.rbuf.writable_size
          · rw [if_pos h2] at h
            injection h with h
            injection h with h3 h4
            injection h4 with h5 h6
            injection h6 with h7 h8
            subst h3
            subst h8
            constructor
            · simp
            · intro sz bd hx
              injection hx with hx1 hx2
              subst hx1
              subst hx2
              omega
          · rw [if_neg h2] at h
            have hres := ih _ _ _ _ _ _ h
            exact hres
        · rw [if_neg h1] at h
          by_cases h3 : ((st.rbuf.writeBytes (bytes.take
              st.rbuf.writable_size) st.rbuf.writable_size).Inject
              (bytes.drop st.rbuf.writable_size)
              (bytes.length - st.rbuf.writable_size)).2 = false
          · rw [if_pos h3] at h
            injection h with h
            injection h with h4 h5
            injection h5 with h6 h7
            injection h7 with h8 h9
            subst h4
            subst h9
            simp
          · rw [if_neg h3] at h
            by_cases h2 : bytes.length < swap_size + st.rbuf.writable_size
            · rw [if_pos h2] at h
              injection h with h
              injection h with h4 h5
              injection h5 with h6 h7
              injection h7 with h8 h9
              subst h4
              subst h9
              constructor
              · simp
              · intro sz bd hx
                injection hx with hx1 hx2
                subst hx1
                subst hx2
                omega
            · rw [if_neg h2] at h
              have hres := ih _ _ _ _ _ _ h
              exact hres

/-- C1 counterexample: starting from a socket with `can_read` true and
`eof` false, a `DoRead` whose single readv returns 0 bytes (end of
stream) sets `eof` and returns with `can_read` still true, although the
last readv syscall of the call returned 0.  This falsifies the claimed
equivalence that `can_read` is false iff the last readv returned
EAGAIN/EWOULDBLOCK or 0. -/
theorem C1_counterexample :
    Socket.DoRead 100 [ReadvRes.ok []]
        ⟨⟨[0, 0, 0, 0], 0, 0, false⟩, true, false⟩
      = some (⟨⟨[0, 0, 0, 0], 0, 0, false⟩, true, true⟩, 0, NetState.ok,
          ReadExit.eof0) ∧
    (⟨⟨[0, 0, 0, 0], 0, 0, false⟩, true, true⟩ : SockReadState).can_read
      ≠ false := by
  decide

/-- C1 (amended): after `DoRead` returns, `can_read` is false iff the call
exited through the EAGAIN/EWOULDBLOCK branch or through a positive short
readv (fewer bytes than that iteration held in tail plus swap space), or
`can_read` was already false on entry; a readv returning 0 (EOF), any
other errno, an inject failure, or the early-eof return leaves `can_read`
unchanged.  Every short-read exit really was short: 0 < sz < bound. -/
theorem C1_can_read_contract (swap_size : Nat) (trace : List ReadvRes)
    (st st' : SockReadState) (acc : Nat) (ns : NetState) (ex : ReadExit)
    (h : Socket.DoRead swap_size trace st = some (st', acc, ns, ex)) :
    (st'.can_read = false ↔
      (ex = ReadExit.eagain ∨ (∃ sz bd, ex = ReadExit.shortRead sz bd)
        ∨ st.can_read = false)) ∧
    (∀ sz bd, ex = ReadExit.shortRead sz bd → 0 < sz ∧ sz < bd) := by
  unfold Socket.DoRead at h
  by_cases he : st.eof = true
  · rw [if_pos he] at h
    injection h with h
    injection h with h2 h3
    injection h3 with h4 h5
    injection h5 with h6 h7
    subst h2
    subst h7
    simp
  · rw [if_neg he] at h
    exact doReadLoop_can_read swap_size trace st 0 st' acc ns ex h

/-- C1 witness: the amended contract applied to a DoRead whose single
readv fails with EAGAIN. -/
theorem C1_can_read_contract_witness :
    ((⟨⟨[0, 0, 0, 0], 0, 0, false⟩, false, false⟩ : SockReadState).can_read
        = false ↔
      (ReadExit.eagain = ReadExit.eagain ∨
        (∃ sz bd, ReadExit.eagain = ReadExit.shortRead sz bd) ∨
        (⟨⟨[0, 0, 0, 0], 0, 0, false⟩, true, false⟩
            : SockReadState).can_read = false)) ∧
    (∀ sz bd, ReadExit.eagain = ReadExit.shortRead sz bd →
      0 < sz ∧ sz < bd) :=
  C1_can_read_contract 100 [ReadvRes.err EAGAIN]
    ⟨⟨[0, 0, 0, 0], 0, 0, false⟩, true, false⟩
    ⟨⟨[0, 0, 0, 0], 0, 0, false⟩, false, false⟩ 0 NetState.ok
    ReadExit.eagain (by decide)

end Mnet

namespace Mnet

theorem doWriteLoop_preserves :
    ∀ (trace : List (Int × Nat)) (st st' : SockWriteState) (wsz : Nat)
      (ns : NetState), DoWriteLoop trace st = some (st', wsz, ns) →
      st'.prev_write_size = st.prev_write_size ∧
      st'.write_cb = st.write_cb := by
  intro trace
  induction trace with
  | nil =>
    intro st st' wsz ns h
    simp [DoWriteLoop] at h
  | cons r rest ih =>
    intro st st' wsz ns h
    obtain ⟨sz, eno⟩ := r
    rw [DoWriteLoop] at h
    by_cases h0 : sz ≤ 0
    · rw [if_pos h0] at h
      by_cases h1 : eno = EAGAIN ∨ eno = EWOULDBLOCK
      · rw [if_pos h1] at h
        injection h with h
        injection h with h2 h3
        subst h2
        exact ⟨rfl, rfl⟩
      · rw [if_neg h1] at h
        by_cases h2 : eno = EINTR
        · rw [if_pos h2] at h
          exact ih st st' wsz ns h
        · rw [if_neg h2] at h
          injection h with h
          injection h with h3 h4
          subst h3
          exact ⟨rfl, rfl⟩
    · rw [if_neg h0] at h
      simp only at h
      injection h with h
      injection h with h2 h3
      subst h2
      exact ⟨rfl, rfl⟩

/-- C3: for a `Socket::OnWriteNotify` invocation with a nonempty write
buffer and an installed write callback, given the result of the inner
`DoWrite`: with no error and the write buffer emptied, the write callback
fires exactly once with total prev_write_size + the bytes this DoWrite
wrote, carrying OK, and the slot is released; with no error but a
still-nonempty buffer, no callback fires, the slot stays installed and
prev_write_size is incremented by the bytes written; with an error, the
callback fires exactly once with prev_write_size and that error. -/
theorem C3_write_notify_contract (trace : List (Int × Nat))
    (st st2 : SockWriteState) (wsz : Nat) (ns : NetState)
    (hne : 0 < st.wbuf.readable_size) (hcb : st.write_cb = true)
    (hdw : DoWriteLoop trace { st with can_write := true }
      = some (st2, wsz, ns)) :
    ∃ stf invs, Socket.OnWriteNotify trace st = some (stf, invs) ∧
      (ns = NetState.ok → st2.wbuf.readable_size = 0 →
        invs = [(st.prev_write_size + wsz, NetState.ok)] ∧
        stf.write_cb = false) ∧
      (ns = NetState.ok → st2.wbuf.readable_size ≠ 0 →
        invs = [] ∧ stf.prev_write_size = st.prev_write_size + wsz ∧
        stf.write_cb = true) ∧
      (ns.isOk = false →
        invs = [(st.prev_write_size, ns)] ∧ stf.write_cb = false) := by
  have hpres := doWriteLoop_preserves trace _ _ _ _ hdw
  unfold Socket.OnWriteNotify
  have hne2 : ¬ (Buffer.readable_size
      ({ st with can_write := true } : SockWriteState).wbuf = 0) := by
    show ¬ (st.wbuf.readable_size = 0)
    omega
  rw [if_neg hne2, hdw]
  cases ns with
  | ok =>
    by_cases hempty : st2.wbuf.readable_size = 0
    · simp only [NetState.isOk, if_true, if_pos hempty]
      refine ⟨_, _, rfl, fun _ _ => ⟨?_, rfl⟩, fun _ hno => absurd hempty hno,
        fun hbad => by simp [NetState.isOk] at hbad⟩
      rw [hpres.1]
    · simp only [NetState.isOk, if_true, if_neg hempty]
      refine ⟨_, _, rfl, fun _ hz => absurd hz hempty,
        fun _ _ => ⟨rfl, ?_, ?_⟩,
        fun hbad => by simp [NetState.isOk] at hbad⟩
      · show st2.prev_write_size + wsz = st.prev_write_size + wsz
        rw [hpres.1]
      · show st2.write_cb = true
        rw [hpres.2]
        exact hcb
  | fail cat code =>
    simp only [NetState.isOk, Bool.false_eq_true, if_false]
    refine ⟨_, _, rfl, fun hbad => by simp at hbad,
      fun hbad => by simp at hbad, fun _ => ⟨?_, rfl⟩⟩
    rw [hpres.1]

/-- C3 witness: the contract applied to a socket with two readable bytes,
prev_write_size 5 and an installed callback, whose single write syscall
accepts both bytes: the callback fires once with 5 + 2 and OK. -/
theorem C3_write_notify_contract_witness :
    ∃ stf invs, Socket.OnWriteNotify [(2, 0)]
        ⟨⟨[9, 9], 0, 2, false⟩, false, 5, true⟩ = some (stf, invs) ∧
      (NetState.ok = NetState.ok →
        Buffer.readable_size (⟨⟨[9, 9], 0, 0, false⟩, true, 5, true⟩
            : SockWriteState).wbuf = 0 →
        invs = [(5 + 2, NetState.ok)] ∧ stf.write_cb = false) ∧
      (NetState.ok = NetState.ok →
        Buffer.readable_size (⟨⟨[9, 9], 0, 0, false⟩, true, 5, true⟩
            : SockWriteState).wbuf ≠ 0 →
        invs = [] ∧ stf.prev_write_size = 5 + 2 ∧ stf.write_cb = true) ∧
      (NetState.ok.isOk = false →
        invs = [(5, NetState.ok)] ∧ stf.write_cb = false) :=
  C3_write_notify_contract [(2, 0)] ⟨⟨[9, 9], 0, 2, false⟩, false, 5, true⟩
    ⟨⟨[9, 9], 0, 0, false⟩, true, 5, true⟩ 2 NetState.ok (by decide)
    (by decide) (by decide)

end Mnet

namespace Mnet

/-- C2: evaluation of the dispatcher at the failing input.  One epoll
event with EPOLLIN and EPOLLOUT hits a CLOSING socket whose read drains
to EOF (the single readv returns 0) and whose close callback destroys the
socket.  `Socket::OnReadNotify` has replaced the dispatcher-frame deleted
flag with its own local one via `set_notify_flag`, so the destructor sets
the socket-local flag only: the dispatcher-frame flag stays false
(`dispFlag = false` in the result) and the dispatcher goes on to call
`OnWriteNotify` on the destroyed socket, firing its write callback — a
second callback on the socket in the same dispatch, which the claim (and
the spec) say cannot happen. -/
theorem C2_second_callback_after_destroy :
    IOManager.dispatchOne 100 ⟨false, false, true, true⟩ 0
        ⟨SockState.closing, true, true, false, false, false, true⟩
        [ReadvRes.ok []] ⟨⟨[], 0, 0, false⟩, false, false⟩
        [((1 : Int), 0)] ⟨⟨[7], 0, 1, false⟩, false, 0, true⟩
      = some ⟨[TopCall.readNotify, TopCall.writeNotify],
          [CbEvent.closeClose NetState.ok, CbEvent.writeCb 1 NetState.ok],
          true, false⟩ := by
  decide

end Mnet

namespace Mnet

/-- C7: whenever the accept4 loop of `ServerSocket::DoAccept` (after any
number of EINTR retries) fails with EMFILE or ENFILE and a pending
connection exists (the recovery accept returns a positive fd), the full
recovery sequence runs in order — close the reserved dummy fd, accept one
pending connection, close it, reopen the dummy fd on /dev/null — and the
call reports a System-category NetState carrying that errno, returning
-1, with the dummy fd now the freshly opened one. -/
theorem C7_fd_exhaustion_recovery (w : RecoveryWorld)
    (pre rest : List AcceptRes) (st : ServerState) (e : Nat)
    (hpre : ∀ x ∈ pre, x = AcceptRes.err EINTR)
    (he : e = EMFILE ∨ e = ENFILE) (hpend : 0 < w.acceptRet) :
    ServerSocket.DoAccept w (pre ++ AcceptRes.err e :: rest) st
      = some ({ st with dummy_fd := (w.openFd : Int) },
          [SysEv.closeFd st.dummy_fd, SysEv.acceptPlain,
            SysEv.closeFd w.acceptRet, SysEv.openDevNull],
          NetState.fail StateCategory.kSystem e, -1) := by
  induction pre with
  | nil =>
    rw [List.nil_append, ServerSocket.DoAccept]
    have hnb : ¬ (e = EAGAIN ∨ e = EWOULDBLOCK) := by
      unfold EAGAIN EWOULDBLOCK EMFILE ENFILE at *
      omega
    have hni : ¬ (e = EINTR) := by
      unfold EINTR EMFILE ENFILE at *
      omega
    rw [if_neg hnb, if_neg hni]
    unfold ServerSocket.HandleRunOutOfFD
    rw [if_pos he]
    have hnneg : ¬ (w.acceptRet < 0) := by omega
    have hposev : w.acceptRet > 0 := hpend
    simp only [if_neg hnneg, if_pos hposev, if_neg hnb]
    simp
  | cons x pre ih =>
    have hx : x = AcceptRes.err EINTR := hpre x (List.mem_cons_self x pre)
    subst hx
    rw [List.cons_append, ServerSocket.DoAccept]
    have hnb : ¬ (EINTR = EAGAIN ∨ EINTR = EWOULDBLOCK) := by
      unfold EAGAIN EWOULDBLOCK EINTR
      omega
    rw [if_neg hnb, if_pos rfl]
    exact ih (fun y hy => hpre y (List.mem_cons_of_mem _ hy))

/-- C7 witness: the recovery contract applied to a concrete EMFILE
failure with one EINTR retry beforehand, a pending connection accepted at
fd 5, and /dev/null reopened at fd 7. -/
theorem C7_fd_exhaustion_recovery_witness :
    ServerSocket.DoAccept ⟨5, 0, 7⟩
        ([AcceptRes.err EINTR] ++ AcceptRes.err EMFILE :: []) ⟨true, 3⟩
      = some ({ (⟨true, 3⟩ : ServerState) with dummy_fd := ((7 : Nat) : Int) },
          [SysEv.closeFd (⟨true, 3⟩ : ServerState).dummy_fd,
            SysEv.acceptPlain, SysEv.closeFd (⟨5, 0, 7⟩ :
              RecoveryWorld).acceptRet, SysEv.openDevNull],
          NetState.fail StateCategory.kSystem EMFILE, -1) :=
  C7_fd_exhaustion_recovery ⟨5, 0, 7⟩ [AcceptRes.err EINTR] [] ⟨true, 3⟩
    EMFILE (by intro x hx; simpa using hx) (Or.inl rfl) (by decide)

end Mnet

namespace Mnet

theorem timeTrigger_of_le {diff t : Nat} (h : diff ≤ t) :
    timeTrigger diff t = decide (t ≤ diff + 2) := by
  unfold timeTrigger
  rw [decide_eq_decide]
  omega

theorem fireLoop_sorted (diff : Nat) :
    ∀ (q : List TimerEntry), (∀ t ∈ q, diff ≤ t.time) →
      q.Pairwise (fun x y => x.time ≤ y.time) →
      fireLoop q diff
        = (q.filter (fun t => decide (diff + 2 < t.time)),
           (q.filter (fun t => decide (t.time ≤ diff + 2))).map
             (fun t => (t.id, t.time))) := by
  intro q
  induction q with
  | nil =>
    intro _ _
    rfl
  | cons t rest ih =>
    intro hb hp
    rw [List.pairwise_cons] at hp
    obtain ⟨hall, hp2⟩ := hp
    have hbt : diff ≤ t.time := hb t (List.mem_cons_self _ _)
    rw [fireLoop, timeTrigger_of_le hbt]
    by_cases hc : t.time ≤ diff + 2
    · rw [if_pos (by simpa using hc)]
      have hbrest : ∀ s ∈ rest, diff ≤ s.time := by
        intro s hs
        exact hb s (List.mem_cons_of_mem _ hs)
      have hcond1 : (decide (diff + 2 < t.time)) = false := by
        simp
        omega
      have hcond2 : (decide (t.time ≤ diff + 2)) = true := by
        simpa using hc
      simp only [ih hbrest hp2, List.filter_cons, hcond1, hcond2, if_false,
        if_true, Bool.false_eq_true, List.map_cons]
    · rw [if_neg (by simpa using hc)]
      have h1 : (t :: rest).filter (fun s => decide (diff + 2 < s.time))
          = t :: rest := by
        rw [List.filter_eq_self]
        intro a ha
        rcases List.mem_cons.mp ha with ha | ha
        · subst ha
          simp
          omega
        · have := hall a ha
          simp
          omega
      have h2 : (t :: rest).filter (fun s => decide (s.time ≤ diff + 2))
          = [] := by
        rw [List.filter_eq_nil_iff]
        intro a ha
        rcases List.mem_cons.mp ha with ha | ha
        · subst ha
          simp
          omega
        · have := hall a ha
          simp
          omega
      rw [h1, h2]
      rfl

/-- C5 counterexample: with the sorted heap holding entries at relative
times 0 and 3 and an empty dispatch batch, `UpdateTimer` fires only the
head entry (id 0) and leaves the entry at time 3 in the queue — although
3 is within plus or minus 3 ms of the head time 0 — because TIME_TRIGGER
demands a difference strictly below 3. -/
theorem C5_counterexample :
    IOManager.UpdateTimer [⟨0, 0⟩, ⟨3, 1⟩] 0 0 50
      = some ([⟨3, 1⟩], [(0, 0)], 50) ∧
    ((3 : Int) - (0 : Int)).natAbs ≤ 3 := by
  decide

/-- C5 (amended): on a nonempty sorted heap with an empty dispatch batch,
`UpdateTimer` pops and invokes, in heap order and exactly once each,
exactly the entries whose relative time is strictly within 3 ms of the
head time (difference at most 2 ms), and returns the current time as the
new baseline; with a nonempty batch, when the elapsed time now - prev is
representable (below 2^31) and no entry underflows, the elapsed time is
subtracted from every entry, nothing is invoked, and the new baseline
(the current time truncated through int, as the code computes it) is
returned. -/
theorem C5_update_timer (e : TimerEntry) (qs : List TimerEntry)
    (sz prev now : Nat)
    (hsorted : (e :: qs).Pairwise (fun x y => x.time ≤ y.time)) :
    (IOManager.UpdateTimer (e :: qs) 0 prev now
      = some ((e :: qs).filter (fun t => decide (e.time + 2 < t.time)),
          ((e :: qs).filter (fun t => decide (t.time ≤ e.time + 2))).map
            (fun t => (t.id, t.time)),
          now)) ∧
    (sz ≠ 0 → prev ≤ now → now - prev < 2 ^ 31 → now < 2 ^ 64 →
      (∀ t ∈ e :: qs, now - prev ≤ t.time ∧ t.time < 2 ^ 64) →
      IOManager.UpdateTimer (e :: qs) sz prev now
        = some ((e :: qs).map
            (fun t => { t with time := t.time - (now - prev) }),
          [], toUInt64 (toInt32 now))) := by
  constructor
  · have hbounds : ∀ t ∈ e :: qs, e.time ≤ t.time := by
      intro t ht
      rcases List.mem_cons.mp ht with ht | ht
      · subst ht
        exact le_refl _
      · exact (List.pairwise_cons.mp hsorted).1 t ht
    simp only [IOManager.UpdateTimer, if_pos rfl,
      fireLoop_sorted e.time (e :: qs) hbounds hsorted, if_true]
  · intro hsz hpn hlt h64 hbnd
    have hdiff : toInt32 ((toUInt64 (toInt32 now) + 2 ^ 64 - prev % 2 ^ 64)
          % 2 ^ 64) = ((now - prev : Nat) : Int) := by
      unfold toUInt64 toInt32
      split_ifs <;> omega
    have hmap : ∀ f : TimerEntry → TimerEntry, f = (fun t =>
        { t with time := toUInt64 ((t.time : Int)
          - ((now - prev : Nat) : Int)) }) →
        (e :: qs).map f
          = (e :: qs).map
              (fun t => { t with time := t.time - (now - prev) }) := by
      intro f hf
      subst hf
      apply List.map_congr_left
      intro t ht
      have hb := hbnd t ht
      have heq : toUInt64 ((t.time : Int) - ((now - prev : Nat) : Int))
          = t.time - (now - prev) := by
        unfold toUInt64
        omega
      rw [heq]
    simp only [IOManager.UpdateTimer, if_neg hsz, hdiff]
    rw [hmap _ rfl]

/-- C5 witness: the amended theorem applied to the sorted two-entry heap
[(5, id 0), (9, id 1)]: with an empty batch only the head fires (9 is more
than 2 ms away) and the baseline becomes 50; with batch size 1, baseline
40 and current time 50, both entries lose the 10 elapsed milliseconds. -/
theorem C5_update_timer_witness :
    (IOManager.UpdateTimer [⟨5, 0⟩, ⟨9, 1⟩] 0 40 50
      = some (([⟨5, 0⟩, ⟨9, 1⟩] : List TimerEntry).filter
            (fun t => decide ((5 : Nat) + 2 < t.time)),
          (([⟨5, 0⟩, ⟨9, 1⟩] : List TimerEntry).filter
            (fun t => decide (t.time ≤ (5 : Nat) + 2))).map
            (fun t => (t.id, t.time)),
          50)) ∧
    ((1 : Nat) ≠ 0 → 40 ≤ 50 → 50 - 40 < 2 ^ 31 → 50 < 2 ^ 64 →
      (∀ t ∈ ([⟨5, 0⟩, ⟨9, 1⟩] : List TimerEntry),
        50 - 40 ≤ t.time ∧ t.time < 2 ^ 64) →
      IOManager.UpdateTimer [⟨5, 0⟩, ⟨9, 1⟩] 1 40 50
        = some (([⟨5, 0⟩, ⟨9, 1⟩] : List TimerEntry).map
            (fun t => { t with time := t.time - (50 - 40) }),
          [], toUInt64 (toInt32 50))) :=
  C5_update_timer ⟨5, 0⟩ [⟨9, 1⟩] 1 40 50 (by simp)

end Mnet
